import Mathlib

/-!
# The WebSocket hub of go-chat-backend

A shallow embedding of `websocket/hub.go`: the membership tables of `Hub`, the
buffered `send` channel of every `Client`, the three cases of `Hub.Run`, the
dispatch calls `Hub.SendToUser` and `Hub.BroadcastMessage`, and the loops
`readPump` and `writePump` of a client. Three functions of other packages follow:
`utils.ValidateEmail`, `utils.SanitizeString` and the request building of
`LLMService.GenerateResponse`.

Go constructs are rendered as follows.

* `map[K]V` is an association list with distinct keys (`AList`); `len` of a map is
  the number of its entries.
* `*Client` is a `Client` record; two pointers are equal exactly when the records
  are (every client gets its own `id` from `uuid.New()`).
* `chan []byte` is a `Chan`: the queued frames, the capacity and the closed flag.
  The channel a client points to lives in the `send` component of the hub state.
* A statement that can park the goroutine or panic yields an `Outcome`.
* `json.Marshal` and `time.Now` are library calls: the marshaller is a parameter
  and the clock reading is an argument of the event.
* A call of `SendToUser` is taken as one step, interleaved with the events the
  control loop handles (`Hub.run`); in such a run the writer loops, which drain
  the mailboxes, take no step, so a mailbox only grows until it is closed. A run
  of `World` actions interleaves the iterations of the writer loops as well.
* `SendToUser` runs in the goroutine of its caller. `Hub.SendToUserRacing` lets
  the control loop handle unregister events inside a call, with the slice of the
  caller sharing its array with the slice of the map, and `Hub.registerRacing`
  places a call inside the register case.
-/

set_option maxRecDepth 100000

namespace GoChat

/-! ## Data model -/

/-- A `uuid.UUID`. -/
abbrev UUID := Nat

/-- A `[]byte`. -/
abbrev Bytes := List Nat

/-- A `time.Time`. -/
abbrev Time := Nat

/-- The Go `error` returned by `json.Marshal`. -/
abbrev GoError := String

/-- What an `interface{}` payload can be, as far as `json.Marshal` tells values
apart: `nil`, a value with a JSON rendering, or a value of a kind that cannot be
marshalled (a channel, a func). -/
inductive Any where
  | nil
  | json (raw : String)
  | unsupported
deriving DecidableEq, Repr

/-- The struct `Message` (hub.go, 167-174). The field `Type` is spelled `Type'`. -/
structure Message where
  Type' : String
  Content : String
  UserID : UUID := 0
  Username : String := ""
  Data : Any := Any.nil
  Timestamp : Time
deriving DecidableEq, Repr

/-- The immutable part of the struct `Client` (hub.go, 157-164); `hub` and `conn`
play no part in the tables, and `send` is held by the hub state. -/
structure Client where
  id : UUID
  userID : UUID
  username : String
deriving DecidableEq, Repr

/-- A buffered `chan []byte`. -/
structure Chan where
  buf : List Bytes
  cap : Nat
  closed : Bool
deriving DecidableEq, Repr

/-- The channel `make(chan []byte, n)`. -/
def makeChan (n : Nat) : Chan := ⟨[], n, false⟩

/-- How a statement ends: normally, parked on a channel, or in a panic. -/
inductive Outcome (σ : Type) where
  | done (s : σ)
  | blocks
  | panics
deriving DecidableEq, Repr

/-- Sequencing of statements. -/
def Outcome.bind {σ τ : Type} (o : Outcome σ) (f : σ → Outcome τ) : Outcome τ :=
  match o with
  | .done s => f s
  | .blocks => .blocks
  | .panics => .panics

/-- Post-processing of a result. -/
def Outcome.map {σ τ : Type} (f : σ → τ) (o : Outcome σ) : Outcome τ :=
  o.bind (fun s => .done (f s))

/-- The statement `ch <- data`: panics on a closed channel, parks the sender
while the buffer is full. -/
def Chan.send (ch : Chan) (data : Bytes) : Outcome Chan :=
  if ch.closed then .panics
  else if ch.buf.length < ch.cap then .done { ch with buf := ch.buf ++ [data] }
  else .blocks

/-- The statement `select { case ch <- data: default: }`; `none` is the
`default` branch. -/
def Chan.trySend (ch : Chan) (data : Bytes) : Outcome (Option Chan) :=
  if ch.closed then .panics
  else if ch.buf.length < ch.cap then .done (some { ch with buf := ch.buf ++ [data] })
  else .done none

/-- The statement `close(ch)`. -/
def Chan.close (ch : Chan) : Outcome Chan :=
  if ch.closed then .panics else .done { ch with closed := true }

/-- The state of a mailbox after the `select` of `pushOrEvict` on an open channel:
one more frame when there is room, closed otherwise. -/
def Chan.afterPush (ch : Chan) (data : Bytes) : Chan :=
  if ch.buf.length < ch.cap then { ch with buf := ch.buf ++ [data] }
  else { ch with closed := true }

/-- The mailbox is open and holds as many frames as its capacity. -/
def Chan.full (ch : Chan) : Prop := ch.closed = false ∧ ch.cap ≤ ch.buf.length

/-- The mailbox is open and has room for one more frame. -/
def Chan.hasRoom (ch : Chan) : Prop := ch.closed = false ∧ ch.buf.length < ch.cap

instance (ch : Chan) : Decidable ch.full := by unfold Chan.full; infer_instance

instance (ch : Chan) : Decidable ch.hasRoom := by unfold Chan.hasRoom; infer_instance

/-- The struct `Hub` (hub.go, 15-30) together with the channels its clients point
to. The channels `broadcast`, `register` and `unregister` are unbuffered; what is
sent on them appears as an `Event`. -/
structure Hub where
  clients : AList (fun _ : Client => Bool)
  userClients : AList (fun _ : UUID => List Client)
  send : Client → Chan

/-- The constructor `NewHub` (hub.go, 33-41): both tables empty. A client that
has not connected yet has the channel `HandleWebSocket` gives it,
`make(chan []byte, 256)`. -/
def NewHub : Hub :=
  { clients := ∅, userClients := ∅, send := fun _ => makeChan 256 }

/-- The two membership tables of a hub state, as plain lists: the keys of
`clients`, and the entries of `userClients` as pairs. -/
def Hub.tables (h : Hub) : List Client × List (UUID × List Client) :=
  (h.clients.keys, h.userClients.entries.map fun e => (e.1, e.2))

/-- The read `h.userClients[userID]`: the zero value (a nil slice) when the key is
absent. -/
def Hub.sessionsOf (h : Hub) (userID : UUID) : List Client :=
  (h.userClients.lookup userID).getD []

/-- The method `GetConnectedUsers` (hub.go, 147-149): `len(h.userClients)`. -/
def Hub.GetConnectedUsers (h : Hub) : Nat := h.userClients.entries.length

/-- The method `GetTotalConnections` (hub.go, 152-154): `len(h.clients)`. -/
def Hub.GetTotalConnections (h : Hub) : Nat := h.clients.entries.length

/-- The welcome message built in the register case (hub.go, 58-62). -/
def welcomeMsg (now : Time) : Message :=
  { Type' := "system", Content := "欢迎使用智能聊天助手！", Timestamp := now }

/-! ## The control loop -/

section Run

variable (jsonMarshalMessage : Message → Except GoError Bytes)

/-- The register case of `Hub.Run` (hub.go, 47-65). The welcome frame is sent
with a plain `client.send <- data`. -/
def Hub.register (h : Hub) (client : Client) (now : Time) : Outcome Hub :=
  let h1 : Hub :=
    { h with
      clients := h.clients.insert client true
      userClients :=
        h.userClients.insert client.userID (h.sessionsOf client.userID ++ [client]) }
  match jsonMarshalMessage (welcomeMsg now) with
  | .ok data =>
    ((h1.send client).send data).bind fun ch =>
      .done { h1 with send := Function.update h1.send client ch }
  | .error _ => .done h1

/-- The unregister case of `Hub.Run` (hub.go, 67-92). The `for … break` loop
removes the first occurrence of the client from its user's slice, which is what
`List.erase` does; when the client does not occur the map is not written. -/
def Hub.unregister (h : Hub) (client : Client) : Outcome Hub :=
  if client ∈ h.clients then
    let clients := h.clients.erase client
    ((h.send client).close).bind fun ch =>
      let userClients := h.sessionsOf client.userID
      let m1 :=
        if client ∈ userClients then
          h.userClients.insert client.userID (userClients.erase client)
        else h.userClients
      let m2 :=
        if ((m1.lookup client.userID).getD []).length = 0 then m1.erase client.userID
        else m1
      .done { clients := clients, userClients := m2,
              send := Function.update h.send client ch }
  else .done h

/-- The body shared by the loops of the broadcast case (hub.go, 97-102) and of
`SendToUser` (hub.go, 123-129): a non-blocking push and, on `default`,
`close(client.send)` followed by `delete(h.clients, client)`. -/
def Hub.pushOrEvict (h : Hub) (client : Client) (data : Bytes) : Outcome Hub :=
  ((h.send client).trySend data).bind fun r =>
    match r with
    | some ch => .done { h with send := Function.update h.send client ch }
    | none =>
      ((h.send client).close).bind fun ch =>
        .done { h with
                send := Function.update h.send client ch
                clients := h.clients.erase client }

/-- A `for _, client := range …` loop over a fixed list of clients with the body
`pushOrEvict`. -/
def Hub.pushAll (data : Bytes) : List Client → Hub → Outcome Hub
  | [], h => .done h
  | client :: rest, h => (h.pushOrEvict client data).bind (Hub.pushAll data rest)

/-- The broadcast case of `Hub.Run` (hub.go, 94-103). The loop ranges over the
keys of `h.clients`; the only key an iteration deletes is its own, so every key
present at the start is visited. -/
def Hub.broadcast (h : Hub) (message : Bytes) : Outcome Hub :=
  h.pushAll message h.clients.keys

variable {α : Type} (jsonMarshal : α → Except GoError Bytes)

/-- The method `Hub.SendToUser` (hub.go, 109-133). The second component of the
result is the returned `error` (`none` is `nil`). -/
def Hub.SendToUser (h : Hub) (userID : UUID) (message : α) :
    Outcome (Hub × Option GoError) :=
  match jsonMarshal message with
  | .error err => .done (h, some err)
  | .ok data =>
    match h.userClients.lookup userID with
    | none => .done (h, none)
    | some userClients =>
      if userClients.length = 0 then .done (h, none)
      else (h.pushAll data userClients).map fun h1 => (h1, none)

/-- The method `Hub.BroadcastMessage` (hub.go, 136-144) together with the
handling of the frame by the control loop, which receives it from the unbuffered
channel. -/
def Hub.BroadcastMessage (h : Hub) (message : α) : Outcome (Hub × Option GoError) :=
  match jsonMarshal message with
  | .error err => .done (h, some err)
  | .ok data => (h.broadcast data).map fun h1 => (h1, none)

/-- What reaches the hub: a client on `h.register` (with the clock reading used
for the welcome frame), a client on `h.unregister`, a frame on `h.broadcast`, or
a call of `SendToUser`. -/
inductive Event (α : Type) where
  | register (client : Client) (now : Time)
  | unregister (client : Client)
  | broadcast (message : Bytes)
  | sendToUser (userID : UUID) (message : α)

/-- One event handled on a hub state. -/
def Hub.step (h : Hub) : Event α → Outcome Hub
  | .register client now => h.register jsonMarshalMessage client now
  | .unregister client => h.unregister client
  | .broadcast message => h.broadcast message
  | .sendToUser userID message => (h.SendToUser jsonMarshal userID message).map Prod.fst

/-- The events handled one after the other. -/
def Hub.run : Hub → List (Event α) → Outcome Hub
  | h, [] => .done h
  | h, e :: es =>
    (h.step jsonMarshalMessage jsonMarshal e).bind fun h1 =>
      Hub.run h1 es

end Run

/-! ## Sample data

A toy marshaller (it fails on `0`, as `json.Marshal` fails on a value it cannot
encode), two sessions of one user and one session of another. -/

/-- A marshaller for payloads that are numbers; `0` cannot be encoded. -/
def sampleMarshal : Nat → Except GoError Bytes :=
  fun n => if n = 0 then .error "json: unsupported value" else .ok [n]

/-- A marshaller for `Message`: it never fails. -/
def sampleMarshalMessage : Message → Except GoError Bytes :=
  fun m => .ok [m.Type'.length, m.Timestamp]

/-- First session of user 7. -/
def ann1 : Client := ⟨1, 7, "ann"⟩

/-- Second session of user 7. -/
def ann2 : Client := ⟨2, 7, "ann"⟩

/-- A session of user 8. -/
def bob1 : Client := ⟨3, 8, "bob"⟩

/-- A mailbox of capacity 256 that holds 256 frames. -/
def fullChan : Chan := ⟨List.replicate 256 [1], 256, false⟩

/-- A hub in which user 7 has the stalled session `ann1` and the idle session
`ann2`, and user 8 has the idle session `bob1`. -/
def mixedHub : Hub :=
  { clients :=
      (((∅ : AList fun _ : Client => Bool).insert ann1 true).insert ann2 true).insert
        bob1 true
    userClients :=
      @AList.insert UUID (fun _ => List Client) _ 8 [bob1] (AList.singleton 7 [ann1, ann2])
    send := fun c => if c = ann1 then fullChan else makeChan 256 }

/-- A hub in which user 7 has the two idle sessions `ann1` and `ann2`. -/
def pairHub : Hub :=
  { clients := ((∅ : AList fun _ : Client => Bool).insert ann1 true).insert ann2 true
    userClients := AList.singleton 7 [ann1, ann2]
    send := fun _ => makeChan 256 }

/-- One session connects and 255 envelopes are sent to its user while its writer
loop drains nothing: with the welcome frame the mailbox holds 256 frames. -/
def filledTrace : List (Event Nat) :=
  Event.register ann1 0 :: List.replicate 255 (Event.sendToUser 7 5)

/-- The events of `filledTrace` followed by one more envelope for the same user,
which finds the mailbox full. -/
def stalledTrace : List (Event Nat) :=
  filledTrace ++ [Event.sendToUser 7 5]

/-- Two sessions of one user connect and 255 envelopes are sent to the user while
neither writer loop drains anything: both mailboxes hold 256 frames. -/
def twoStalledTrace : List (Event Nat) :=
  Event.register ann1 0 :: Event.register ann2 0 ::
    List.replicate 255 (Event.sendToUser 7 5)

/-! ## The history of registrations

What the sequence of events alone says about which sessions are connected,
without looking at the tables of the hub. -/

/-- The client the event hands to `h.register`, if it is a registration. -/
def Event.registered? {α : Type} : Event α → Option Client
  | .register client _ => some client
  | _ => none

/-- The event registers the session `s`. -/
def Event.registers {α : Type} (s : Client) : Event α → Bool
  | .register client _ => decide (client = s)
  | _ => false

/-- The event unregisters the session `s`. -/
def Event.unregisters {α : Type} (s : Client) : Event α → Bool
  | .unregister client => decide (client = s)
  | _ => false

/-- The event is a registration or an unregistration. -/
def Event.isMembership {α : Type} : Event α → Bool
  | .register _ _ => true
  | .unregister _ => true
  | _ => false

/-- The session `s` has been registered and not yet unregistered: some event
registers it and no later event unregisters it. -/
def stillRegistered {α : Type} (s : Client) : List (Event α) → Bool
  | [] => false
  | e :: rest =>
    (e.registers s && !rest.any (Event.unregisters s)) || stillRegistered s rest

/-- The sessions handed to `h.register`, in order, with repetitions. -/
def registeredSessions {α : Type} (evs : List (Event α)) : List Client :=
  evs.filterMap Event.registered?

/-- The sessions registered and not yet unregistered, each listed once. -/
def liveSessions {α : Type} (evs : List (Event α)) : List Client :=
  (registeredSessions evs).dedup.filter fun s => stillRegistered s evs

/-- The user identities with at least one session registered and not yet
unregistered, each listed once. -/
def liveUsers {α : Type} (evs : List (Event α)) : List UUID :=
  ((liveSessions evs).map Client.userID).dedup

/-- No session is handed to `h.register` twice: `HandleWebSocket` allocates the
client and sends it on the channel a single time. -/
def RegisteredOnce {α : Type} (evs : List (Event α)) : Prop :=
  (registeredSessions evs).Nodup

instance {α : Type} (evs : List (Event α)) : Decidable (RegisteredOnce evs) := by
  unfold RegisteredOnce; infer_instance

/-- The tables agree with each other and with the mailboxes: every per-user
list is non-empty, without repetition, and holds sessions of that user that are
in the global set; every session of the global set is in the list of its user and
has an open mailbox. -/
def Hub.Consistent (h : Hub) : Prop :=
  (∀ u l, h.userClients.lookup u = some l →
    l ≠ [] ∧ l.Nodup ∧ ∀ s ∈ l, s.userID = u ∧ s ∈ h.clients) ∧
  (∀ s, s ∈ h.clients → s ∈ h.sessionsOf s.userID) ∧
  (∀ s, s ∈ h.clients → (h.send s).closed = false)

/-- Two sessions of user 7 and one of user 8 connect, then the first session of
user 7 and the session of user 8 disconnect. -/
def sampleHistory : List (Event Nat) :=
  [Event.register ann1 0, Event.register bob1 1, Event.register ann2 2,
    Event.unregister ann1, Event.unregister bob1]

/-- A hub with empty tables in which the mailbox of `ann1` already holds 256 of
256 frames before the session is registered. -/
def preloadedHub : Hub :=
  { clients := ∅, userClients := ∅
    send := fun c => if c = ann1 then fullChan else makeChan 256 }

/-! ## The writer loop

`Client.writePump` (hub.go, 288-313) is the only receiver on `c.send`. One
iteration of its `for`/`select` takes a frame from the mailbox and passes it to
`c.conn.WriteMessage`, or passes a ping when the ticker fires. -/

/-- What `writePump` passes to `c.conn.WriteMessage`: a `TextMessage` with the
bytes taken from the mailbox, a `PingMessage`, or the `CloseMessage`. -/
inductive Frame where
  | text (message : Bytes)
  | ping
  | close
deriving DecidableEq, Repr

/-- The writer loop of one client: the frames it has passed to the connection, in
order, and whether the loop has returned (which closes the connection). -/
structure Writer where
  wire : List Frame
  returned : Bool
deriving DecidableEq, Repr

/-- The case of the `select` in `writePump` that fires, with the success of the
`WriteMessage` call it leads to. -/
inductive Select where
  | recv (writeOk : Bool)
  | tick (writeOk : Bool)
deriving DecidableEq, Repr

/-- One iteration of the loop of `writePump` (hub.go, 295-312) on the mailbox
`ch`; `none` when the chosen case cannot fire. A receive takes the oldest frame;
on a closed and drained channel it yields `ok == false`, the close message is
written and the loop returns. The result of writing a text frame is not looked
at (hub.go, 304); a failed ping ends the loop (hub.go, 308-310). -/
def writePumpStep (ch : Chan) (w : Writer) : Select → Option (Chan × Writer)
  | .recv _ =>
    if w.returned then none
    else
      match ch.buf with
      | message :: rest =>
        some ({ ch with buf := rest }, { w with wire := w.wire ++ [Frame.text message] })
      | [] =>
        if ch.closed then some (ch, { wire := w.wire ++ [Frame.close], returned := true })
        else none
  | .tick writeOk =>
    if w.returned then none
    else some (ch, { wire := w.wire ++ [Frame.ping], returned := !writeOk })

/-- The payloads of the text frames among the frames passed to a connection. -/
def textFrames : List Frame → List Bytes
  | [] => []
  | Frame.text message :: rest => message :: textFrames rest
  | _ :: rest => textFrames rest

/-- The hub together with the writer loops of the clients. -/
structure World where
  hub : Hub
  writer : Client → Writer

/-- A hub state in which no writer loop has written anything yet. -/
def World.ofHub (h : Hub) : World :=
  { hub := h, writer := fun _ => ⟨[], false⟩ }

/-- What happens next: the hub handles an event, or the writer loop of a client
runs one iteration. -/
inductive Action (α : Type) where
  | hub (e : Event α)
  | writePump (client : Client) (s : Select)

/-- The action is a call of `SendToUser` or an iteration of a writer loop. -/
def Action.isSendOrWrite {α : Type} : Action α → Bool
  | .hub (.sendToUser _ _) => true
  | .writePump _ _ => true
  | _ => false

/-- The frames handed to the connection of a client so far followed by the
frames still queued in its mailbox. -/
def World.stream (w : World) (c : Client) : List Bytes :=
  textFrames (w.writer c).wire ++ (w.hub.send c).buf

section WorldRun

variable {α : Type} (jsonMarshalMessage : Message → Except GoError Bytes)
  (jsonMarshal : α → Except GoError Bytes)

/-- One action on the world; an iteration whose `select` case cannot fire leaves
the writer parked. -/
def World.step (w : World) : Action α → Outcome World
  | .hub e =>
    (w.hub.step jsonMarshalMessage jsonMarshal e).map fun h => { w with hub := h }
  | .writePump client s =>
    match writePumpStep (w.hub.send client) (w.writer client) s with
    | some (ch, wr) =>
      .done { hub := { w.hub with send := Function.update w.hub.send client ch }
              writer := Function.update w.writer client wr }
    | none => .blocks

/-- The actions taken one after the other. -/
def World.run : World → List (Action α) → Outcome World
  | w, [] => .done w
  | w, a :: rest =>
    (w.step jsonMarshalMessage jsonMarshal a).bind fun w1 => World.run w1 rest

/-- The serialized envelopes that the calls `SendToUser(userID, e)` among the
actions ask to deliver, in the order of the calls. -/
def sentTo (userID : UUID) : List (Action α) → List Bytes
  | [] => []
  | .hub (.sendToUser u message) :: rest =>
    (if u = userID then
      match jsonMarshal message with
      | .ok data => [data]
      | .error _ => []
    else []) ++ sentTo userID rest
  | _ :: rest => sentTo userID rest

end WorldRun

/-- Three envelopes are sent to user 7 while the writer loop of `ann1` takes
frames in between, a ping goes out, and the loop drains the rest. -/
def chatActions : List (Action Nat) :=
  [Action.hub (Event.sendToUser 7 11), Action.writePump ann1 (Select.recv true),
    Action.hub (Event.sendToUser 7 12), Action.writePump ann1 (Select.tick true),
    Action.hub (Event.sendToUser 7 13), Action.writePump ann1 (Select.recv false),
    Action.writePump ann1 (Select.recv true)]

/-! ## The wire encoding of `Message`

The struct tags of `Message` (hub.go, 167-174) are read by `json.Marshal` of
`encoding/json`; the type of the field `UserID` is `uuid.UUID` of
`github.com/google/uuid`. Both libraries are outside the repository; what follows
renders the two facts of their documentation that bear on the encoded frame.

* A field tagged `omitempty` is left out when its value is empty, "defined as
  false, 0, a nil pointer, a nil interface value, and any array, slice, map, or
  string of length zero".
* The type is declared `type UUID [16]byte`, an array of length 16, and is
  encoded through its `MarshalText` as the 36-character text form. -/

/-- The pong message built by the reader loop (hub.go, 265-269). -/
def pongMsg (now : Time) : Message :=
  { Type' := "pong", Content := "pong", Timestamp := now }

/-- The value of a member of the encoded JSON object: a string, a UUID in text
form, a time stamp, or the rendering of the payload. -/
inductive JsonValue where
  | string (s : String)
  | uuid (u : UUID)
  | time (t : Time)
  | raw (text : String)
deriving DecidableEq, Repr

/-- The length of the array type `uuid.UUID`. -/
def uuidArrayLen : Nat := 16

/-- The `omitempty` test on a string field: its length is zero. -/
def emptyString (s : String) : Bool := s.length == 0

/-- The `omitempty` test on a field of type `uuid.UUID`: an array is empty when
its length is zero, whatever bytes it holds. -/
def emptyUUID (_u : UUID) : Bool := uuidArrayLen == 0

/-- The `omitempty` test on an `interface{}` field: the interface value is nil. -/
def emptyAny : Any → Bool
  | .nil => true
  | _ => false

/-- The members of the JSON object `json.Marshal` produces for a `Message`, in
the order of the fields; an error when the payload cannot be encoded. The fields
`type`, `content` and `timestamp` carry no `omitempty`. -/
def Message.jsonMembers (msg : Message) : Except GoError (List (String × JsonValue)) :=
  match msg.Data with
  | .unsupported => .error "json: unsupported type"
  | data =>
    .ok ([("type", JsonValue.string msg.Type'), ("content", JsonValue.string msg.Content)] ++
      (if emptyUUID msg.UserID then [] else [("user_id", JsonValue.uuid msg.UserID)]) ++
      (if emptyString msg.Username then []
        else [("username", JsonValue.string msg.Username)]) ++
      (match data with
        | .json raw => [("data", JsonValue.raw raw)]
        | _ => []) ++
      [("timestamp", JsonValue.time msg.Timestamp)])

/-- The keys of the JSON object `json.Marshal` produces for a `Message`. -/
def Message.jsonKeys (msg : Message) : Except GoError (List String) :=
  match msg.jsonMembers with
  | .ok members => .ok (members.map Prod.fst)
  | .error err => .error err

/-- The session `ann1` fills its mailbox, the session `bob1` of another user
connects, and a frame is broadcast. -/
def broadcastTrace : List (Event Nat) :=
  filledTrace ++ [Event.register bob1 1, Event.broadcast [9]]

/-! ## Package utils: validation and sanitizing

A Go `string` is a sequence of bytes: `len` counts bytes and `s[i:j]` slices
bytes. The functions of `utils` below work on such sequences. -/

/-- A Go `string` as its bytes. -/
abbrev GoString := List Nat

/-- The bytes of a string literal made of ASCII characters. -/
def ascii (s : String) : GoString := s.toList.map Char.toNat

/-- The loop of `contains` (auth.go, 98-102) at index `i` with `n` rounds to go:
`s[i:i+len(substr)] == substr` returns `true`, else `i++`. -/
def containsFrom (s substr : GoString) (i : Nat) : Nat → Bool
  | 0 => false
  | n + 1 =>
    if (s.drop i).take substr.length = substr then true
    else containsFrom s substr (i + 1) n

/-- The function `contains` (auth.go, 97-104): `i` runs from `0` to
`len(s)-len(substr)`, and not at all when that difference is negative. -/
def contains (s substr : GoString) : Bool :=
  containsFrom s substr 0 (s.length + 1 - substr.length)

/-- The function `ValidateEmail` (auth.go, 79-85). -/
def ValidateEmail (email : GoString) : Bool :=
  decide (email.length > 5) && decide (email.length ≤ 254) &&
    contains email (ascii "@") && contains email (ascii ".")

/-- The rule of `TestEmailValidation` (main_test.go, 83 and 88):
`strings.Contains(email, "@") && strings.Contains(email, ".") && len(email) > 5
&& !strings.HasPrefix(email, "@")`. -/
def emailRule (email : GoString) : Prop :=
  ascii "@" <:+: email ∧ ascii "." <:+: email ∧ email.length > 5 ∧ ¬ ascii "@" <+: email

instance (email : GoString) : Decidable (emailRule email) := by
  unfold emailRule; infer_instance

/-- A string of 255 bytes that holds an `@` and a `.` and starts with a letter. -/
def longEmail : GoString := ascii "a@b." ++ List.replicate 251 97

/-- What `strings.NewReplacer(oldnew...).Replace` computes when every old string
is a single byte (package `strings` then builds its byte-to-string replacer):
the input is read once from left to right, a byte that is an old string is
replaced by the new string of the first pair that names it, any other byte is
copied, and the replacements are not read again. -/
def byteStringReplace (oldnew : List (GoString × GoString)) : GoString → GoString
  | [] => []
  | b :: rest =>
    (match oldnew.lookup [b] with
      | some new => new
      | none => [b]) ++ byteStringReplace oldnew rest

/-- The function `SanitizeString` (common.go, 98-108). -/
def SanitizeString (input : GoString) : GoString :=
  byteStringReplace
    [(ascii "<", ascii "&lt;"), (ascii ">", ascii "&gt;"), (ascii "&", ascii "&amp;"),
      (ascii "\"", ascii "&quot;"), (ascii "'", ascii "&#39;")] input

/-- The escape of one byte in the words of the claim: `<`, `>`, `&`, `"` and `'`
(bytes 60, 62, 38, 34, 39) become `&lt;`, `&gt;`, `&amp;`, `&quot;` and `&#39;`,
every other byte stays. -/
def escapeByte (b : Nat) : GoString :=
  if b = 60 then ascii "&lt;"
  else if b = 62 then ascii "&gt;"
  else if b = 38 then ascii "&amp;"
  else if b = 34 then ascii "&quot;"
  else if b = 39 then ascii "&#39;"
  else [b]

/-! ## The request of the language model service

The part of `LLMService.GenerateResponse` (llm_service.go, 90-125) that builds
the contents of the request from the context messages and the preference of the
user. Of `models.ChatMessage` and `models.UserPreference` only the fields read
there are kept. -/

/-- The fields `Content` and `Role` of `models.ChatMessage` (models.go, 31-32). -/
structure ChatMessage where
  Content : String
  Role : String
deriving DecidableEq, Repr

/-- The field `SystemPrompt` of `models.UserPreference` (models.go, 62). -/
structure UserPreference where
  SystemPrompt : String
deriving DecidableEq, Repr

/-- The struct `GeminiPart` (llm_service.go, 33-35). -/
structure GeminiPart where
  Text : String
deriving DecidableEq, Repr

/-- The struct `GeminiContent` (llm_service.go, 38-41). -/
structure GeminiContent where
  Parts : List GeminiPart
  Role : String
deriving DecidableEq, Repr

/-- The system prompt chosen at llm_service.go, 94-97: the prompt of the user when
it is not empty, the built-in one otherwise. -/
def systemPromptOf (userPreference : UserPreference) : String :=
  if userPreference.SystemPrompt ≠ "" then userPreference.SystemPrompt
  else "你是一个智能助手，请提供准确、有用的信息和帮助。请用中文回复。"

/-- The entry appended for a message in the loop at llm_service.go, 115-120. -/
def contentOfMessage (msg : ChatMessage) : GeminiContent :=
  { Role := msg.Role, Parts := [{ Text := msg.Content }] }

/-- The slice `geminiContents` built by `GenerateResponse` (llm_service.go,
90-120) for the messages it is given (the function has returned an error before
when there is none): the first message is merged with the system prompt when its
role is "user", and the remaining messages are appended as they are. -/
def geminiContents (messages : List ChatMessage) (userPreference : UserPreference) :
    List GeminiContent :=
  let systemPrompt := systemPromptOf userPreference
  match messages with
  | [] => []
  | firstUserMessage :: rest =>
    if firstUserMessage.Role = "user" then
      { Role := "user"
        Parts := [{ Text := systemPrompt ++ "\n\n" ++ firstUserMessage.Content }] } ::
        rest.map contentOfMessage
    else (firstUserMessage :: rest).map contentOfMessage

/-- The texts of all parts of the contents, in order. -/
def textsOf (contents : List GeminiContent) : List String :=
  (contents.map fun c => c.Parts.map GeminiPart.Text).flatten

/-- A context window that starts with a reply of the assistant. -/
def windowFromAssistant : List ChatMessage :=
  [{ Content := "Hello, how can I help?", Role := "assistant" },
    { Content := "Tell me a joke", Role := "user" }]

/-- A context window that starts with a message of the user. -/
def windowFromUser : List ChatMessage :=
  [{ Content := "Tell me a joke", Role := "user" },
    { Content := "Why did the gopher cross the road?", Role := "assistant" },
    { Content := "Why?", Role := "user" }]

/-! ## The reader loop

`Client.readPump` (hub.go, 232-285) sets the read limit and the read deadline of
the connection, installs the pong handler and then decodes one envelope after the
other. Times are counted in seconds. -/

/-- The reader loop of one client: the read limit and the read deadline set on
its connection, and whether the loop has been left. -/
structure Reader where
  readLimit : Nat
  readDeadline : Time
  exited : Bool
deriving DecidableEq, Repr

/-- What `c.conn.ReadJSON(&msg)` yields: a decoded envelope or an error. -/
inductive ReadResult where
  | decoded (msg : Message)
  | failed
deriving DecidableEq, Repr

/-- The read timeout `60 * time.Second` (hub.go, 240 and 242). -/
def readTimeout : Time := 60

/-- The settings made before the loop (hub.go, 239-240): `SetReadLimit(512)` and
`SetReadDeadline(time.Now().Add(60 * time.Second))`. -/
def readPumpSetup (now : Time) : Reader :=
  { readLimit := 512, readDeadline := now + readTimeout, exited := false }

/-- The pong handler installed at hub.go, 241-244. -/
def pongHandler (r : Reader) (now : Time) : Reader :=
  { r with readDeadline := now + readTimeout }

section ReadPump

variable (jsonMarshalMessage : Message → Except GoError Bytes)

/-- One round of the loop of `readPump` (hub.go, 246-284) with the result of
`ReadJSON` and the reading of the clock. A read error leaves the loop, and the
deferred function hands the client to `h.unregister`, which the control loop
handles. A decoded envelope is stamped (hub.go, 257-259, with no effect on the
hub) and dispatched on its type: "ping" pushes the pong envelope with a plain
`c.send <- data`, "chat" and any other type only write to the log. -/
def Hub.readPumpRound (h : Hub) (r : Reader) (c : Client) (res : ReadResult)
    (now : Time) : Outcome (Hub × Reader) :=
  match res with
  | .failed => (h.unregister c).map fun h1 => (h1, { r with exited := true })
  | .decoded msg =>
    if msg.Type' = "ping" then
      match jsonMarshalMessage (pongMsg now) with
      | .ok data =>
        ((h.send c).send data).map fun ch =>
          ({ h with send := Function.update h.send c ch }, r)
      | .error _ => .done (h, r)
    else if msg.Type' = "chat" then .done (h, r)
    else .done (h, r)

end ReadPump

/-- What the caller of `SendToUser` sees in the slice it read at hub.go, 115 once
the control loop has removed `client` from the slice the map holds for the same
user. `view` is the backing array as far as the slice of the caller reaches and
`current` is the slice of the map, which starts at the same array. The assignment
at hub.go, 77 is `append(userClients[:i], userClients[i+1:]...)`: it moves the
elements behind the client one place down inside that array and leaves the array
as it was from the last place of `current` on. -/
def viewAfterUnregister (view current : List Client) (client : Client) : List Client :=
  if client ∈ current then current.erase client ++ view.drop (current.length - 1)
  else view

/-- The unregister case of `Hub.Run` (hub.go, 67-92) together with what it does
to the slice a caller of `SendToUser(userID, …)` read before: the array is
written only when the guard at hub.go, 69 holds and the client is of that
user. -/
def Hub.unregisterUnder (h : Hub) (userID : UUID) (view : List Client) (client : Client) :
    Outcome (Hub × List Client) :=
  (h.unregister client).map fun h1 =>
    (h1,
      if client ∈ h.clients ∧ client.userID = userID then
        viewAfterUnregister view (h.sessionsOf userID) client
      else view)

/-- The clients `leaving` handed to `h.unregister` one after the other, handled
by the control loop while a caller of `SendToUser(userID, …)` holds `view`. -/
def Hub.unregisterAllUnder (userID : UUID) :
    Hub → List Client → List Client → Outcome (Hub × List Client)
  | h, view, [] => .done (h, view)
  | h, view, client :: rest =>
    (h.unregisterUnder userID view client).bind fun r =>
      Hub.unregisterAllUnder userID r.1 r.2 rest

section Racing

variable {α : Type} (jsonMarshalMessage : Message → Except GoError Bytes)
  (jsonMarshal : α → Except GoError Bytes)

/-- The call `SendToUser` (hub.go, 109-133) as it runs in the goroutine of its
caller (chat_handler.go, 207), next to the control loop: `leaving` are the
clients whose unregister event `Hub.Run` handles between the read of
`h.userClients[userID]` (hub.go, 115) and the loop over the slice read there
(hub.go, 122). The loop ranges over what the slice of the caller shows by then,
its length being the one read at hub.go, 115. -/
def Hub.SendToUserRacing (h : Hub) (userID : UUID) (message : α)
    (leaving : List Client) : Outcome (Hub × Option GoError) :=
  match jsonMarshal message with
  | .error err => .done (h, some err)
  | .ok data =>
    match h.userClients.lookup userID with
    | none => .done (h, none)
    | some userClients =>
      if userClients.length = 0 then .done (h, none)
      else
        (Hub.unregisterAllUnder userID h userClients leaving).bind fun r =>
          (r.1.pushAll data r.2).map fun h2 => (h2, none)

/-- The two writes to the tables in the register case of `Hub.Run` (hub.go,
49-50). -/
def Hub.registerTables (h : Hub) (client : Client) : Hub :=
  { h with
    clients := h.clients.insert client true
    userClients :=
      h.userClients.insert client.userID (h.sessionsOf client.userID ++ [client]) }

/-- The rest of the register case of `Hub.Run` (hub.go, 57-65): the welcome
message is built, serialized and sent with a plain `client.send <- data`. -/
def Hub.registerWelcome (h : Hub) (client : Client) (now : Time) : Outcome Hub :=
  match jsonMarshalMessage (welcomeMsg now) with
  | .ok data =>
    ((h.send client).send data).bind fun ch =>
      .done { h with send := Function.update h.send client ch }
  | .error _ => .done h

/-- The register case of `Hub.Run` next to a call of `SendToUser` that runs in
the goroutine of its caller (chat_handler.go, 207): the call takes place after
the writes to the tables (hub.go, 49-50) and before the welcome frame is sent
(hub.go, 64). The second component is the error the call returns. -/
def Hub.registerRacing (h : Hub) (client : Client) (now : Time) (userID : UUID)
    (message : α) : Outcome (Hub × Option GoError) :=
  ((h.registerTables client).SendToUser jsonMarshal userID message).bind fun r =>
    (r.1.registerWelcome jsonMarshalMessage client now).map fun h2 => (h2, r.2)

end Racing

/-- Third session of user 7. -/
def ann3 : Client := ⟨4, 7, "ann"⟩

/-- The session `ann1` is evicted for a full mailbox (`stalledTrace`); then
`ann2` connects and 255 broadcast frames fill its mailbox, and `ann3` connects. -/
def staleFullRoomTrace : List (Event Nat) :=
  stalledTrace ++ Event.register ann2 1 :: List.replicate 255 (Event.broadcast [9]) ++
    [Event.register ann3 2]

/-- The session `ann1` is evicted for a full mailbox (`stalledTrace`); then the
sessions `ann2` and `ann3` of the same user connect. -/
def staleThenPairTrace : List (Event Nat) :=
  stalledTrace ++ [Event.register ann2 1, Event.register ann3 2]

/-- The session `ann1` fills its mailbox while its writer loop drains nothing;
`ann2` connects, the envelope 11 is sent to user 7, and the writer loop of `ann2`
passes its two frames on to the connection. -/
def siblingActions : List (Action Nat) :=
  filledTrace.map Action.hub ++
    [Action.hub (Event.register ann2 1), Action.hub (Event.sendToUser 7 11),
      Action.writePump ann2 (Select.recv true), Action.writePump ann2 (Select.recv true)]

/-- A ping envelope as a client sends it. -/
def pingFrame : Message := { Type' := "ping", Content := "", Timestamp := 0 }

/-- An envelope with a type the reader loop does not know. -/
def typingFrame : Message := { Type' := "typing", Content := "", Timestamp := 0 }

/-- A mailbox that holds two frames. -/
def twoFrames : Chan := ⟨[[1], [2]], 256, false⟩

/-- The envelope of a chat response as the chat handler builds it, with the
time stamp the handler read from its clock. -/
def chatResponse (timestamp : Time) : Message :=
  { Type' := "chat_response", Content := "hi", UserID := 7, Username := "ann",
    Timestamp := timestamp }

/-! ## Elementary facts -/

@[simp]
theorem Outcome.bind_done {σ τ : Type} (s : σ) (f : σ → Outcome τ) :
    (Outcome.done s).bind f = f s := rfl

@[simp]
theorem Outcome.bind_blocks {σ τ : Type} (f : σ → Outcome τ) :
    (Outcome.blocks : Outcome σ).bind f = .blocks := rfl

@[simp]
theorem Outcome.bind_panics {σ τ : Type} (f : σ → Outcome τ) :
    (Outcome.panics : Outcome σ).bind f = .panics := rfl

@[simp]
theorem Outcome.map_done {σ τ : Type} (s : σ) (f : σ → τ) :
    (Outcome.done s).map f = .done (f s) := rfl

theorem Chan.full_or_hasRoom_of_open (ch : Chan) (h : ch.closed = false) :
    ch.hasRoom ∨ ch.full := by
  unfold Chan.hasRoom Chan.full
  rcases Nat.lt_or_ge ch.buf.length ch.cap with hlt | hge
  · exact Or.inl ⟨h, hlt⟩
  · exact Or.inr ⟨h, hge⟩

theorem Chan.not_full_of_hasRoom {ch : Chan} (h : ch.hasRoom) : ¬ ch.full := by
  unfold Chan.hasRoom at h
  unfold Chan.full
  omega

theorem Hub.pushOrEvict_of_hasRoom (h : Hub) (c : Client) (data : Bytes)
    (hr : (h.send c).hasRoom) :
    h.pushOrEvict c data =
      .done { h with send := Function.update h.send c (Chan.afterPush (h.send c) data) } := by
  obtain ⟨hc, hl⟩ := hr
  simp [Hub.pushOrEvict, Chan.trySend, Chan.afterPush, hc, hl]

theorem Hub.pushOrEvict_of_full (h : Hub) (c : Client) (data : Bytes)
    (hf : (h.send c).full) :
    h.pushOrEvict c data =
      .done { h with
              send := Function.update h.send c (Chan.afterPush (h.send c) data)
              clients := h.clients.erase c } := by
  obtain ⟨hc, hl⟩ := hf
  have hn : ¬ (h.send c).buf.length < (h.send c).cap := by omega
  simp [Hub.pushOrEvict, Chan.trySend, Chan.close, Chan.afterPush, hc, hn]

theorem Hub.pushOrEvict_of_closed (h : Hub) (c : Client) (data : Bytes)
    (hc : (h.send c).closed = true) : h.pushOrEvict c data = .panics := by
  simp [Hub.pushOrEvict, Chan.trySend, hc]

theorem AList.length_keys_erase_add {β : Client → Type} (m : AList β) (c : Client) :
    (m.erase c).keys.length + (if c ∈ m then 1 else 0) = m.keys.length := by
  rw [AList.keys_erase]
  by_cases hc : c ∈ m
  · have hk : c ∈ m.keys := AList.mem_keys.mp hc
    rw [List.length_erase_of_mem hk, if_pos hc]
    have : 0 < m.keys.length := List.length_pos_of_mem hk
    omega
  · have hk : c ∉ m.keys := fun hmem => hc (AList.mem_keys.mpr hmem)
    rw [List.erase_of_not_mem hk, if_neg hc]
    rfl

/-- The fan-out loop on a list of distinct clients whose mailboxes are all open:
it ends normally, leaves `userClients` alone, pushes to or closes exactly the
listed mailboxes, and deletes from `clients` exactly the listed clients whose
mailbox was full. -/
theorem Hub.pushAll_spec (data : Bytes) :
    ∀ (l : List Client) (h : Hub), l.Nodup → (∀ c ∈ l, (h.send c).closed = false) →
      ∃ h1, h.pushAll data l = .done h1 ∧ h1.userClients = h.userClients ∧
        (∀ c, h1.send c = if c ∈ l then Chan.afterPush (h.send c) data else h.send c) ∧
        (∀ c, c ∈ h1.clients ↔ c ∈ h.clients ∧ ¬ (c ∈ l ∧ (h.send c).full)) ∧
        h1.clients.keys.length +
            (l.filter fun c => decide (c ∈ h.clients ∧ (h.send c).full)).length =
          h.clients.keys.length := by
  intro l
  induction l with
  | nil =>
    intro h _ _
    exact ⟨h, rfl, rfl, by simp, by simp, by simp⟩
  | cons c cs ih =>
    intro h hnd hopen
    have hc_notin : c ∉ cs := (List.nodup_cons.mp hnd).1
    have hcs : cs.Nodup := (List.nodup_cons.mp hnd).2
    have hc_open : (h.send c).closed = false := hopen c (List.mem_cons_self c cs)
    have hne : ∀ x ∈ cs, x ≠ c := fun x hx hxc => hc_notin (hxc ▸ hx)
    rcases Chan.full_or_hasRoom_of_open _ hc_open with hroom | hfull
    · -- the push succeeds
      have hstep := Hub.pushOrEvict_of_hasRoom h c data hroom
      obtain ⟨h1, hrun, huc, hsend, hmem, hlen⟩ :=
        ih { h with send := Function.update h.send c (Chan.afterPush (h.send c) data) } hcs
          (by
            intro x hx
            simp only [Function.update_noteq (hne x hx)]
            exact hopen x (List.mem_cons_of_mem c hx))
      refine ⟨h1, ?_, huc, ?_, ?_, ?_⟩
      · simp only [Hub.pushAll, hstep, Outcome.bind_done]
        exact hrun
      · intro x
        rw [hsend x]
        by_cases hxc : x = c
        · subst hxc
          simp [hc_notin]
        · by_cases hx : x ∈ cs
          · simp [hx, Function.update_noteq hxc]
          · simp [hx, hxc, Function.update_noteq hxc]
      · intro x
        rw [hmem x]
        by_cases hxc : x = c
        · subst hxc
          simp [hc_notin, Chan.not_full_of_hasRoom hroom]
        · simp [hxc, Function.update_noteq hxc]
      · have hfil : (cs.filter fun x => decide (x ∈ h.clients ∧
            (Function.update h.send c (Chan.afterPush (h.send c) data) x).full)) =
            cs.filter fun x => decide (x ∈ h.clients ∧ (h.send x).full) := by
          apply List.filter_congr
          intro x hx
          simp only [Function.update_noteq (hne x hx)]
        have hnf : ¬ (h.send c).full := Chan.not_full_of_hasRoom hroom
        simp only [hfil] at hlen
        rw [List.filter_cons_of_neg (by simp [hnf])]
        exact hlen
    · -- the mailbox is full: the client is evicted
      have hstep := Hub.pushOrEvict_of_full h c data hfull
      obtain ⟨h1, hrun, huc, hsend, hmem, hlen⟩ :=
        ih { h with
             send := Function.update h.send c (Chan.afterPush (h.send c) data)
             clients := h.clients.erase c } hcs
          (by
            intro x hx
            simp only [Function.update_noteq (hne x hx)]
            exact hopen x (List.mem_cons_of_mem c hx))
      refine ⟨h1, ?_, huc, ?_, ?_, ?_⟩
      · simp only [Hub.pushAll, hstep, Outcome.bind_done]
        exact hrun
      · intro x
        rw [hsend x]
        by_cases hxc : x = c
        · subst hxc
          simp [hc_notin]
        · by_cases hx : x ∈ cs
          · simp [hx, Function.update_noteq hxc]
          · simp [hx, hxc, Function.update_noteq hxc]
      · intro x
        rw [hmem x]
        by_cases hxc : x = c
        · subst hxc
          simp [AList.mem_erase, hfull]
        · simp [hxc, Function.update_noteq hxc, AList.mem_erase]
      · have hfil : (cs.filter fun x => decide (x ∈ h.clients.erase c ∧
            (Function.update h.send c (Chan.afterPush (h.send c) data) x).full)) =
            cs.filter fun x => decide (x ∈ h.clients ∧ (h.send x).full) := by
          apply List.filter_congr
          intro x hx
          simp only [Function.update_noteq (hne x hx), AList.mem_erase]
          simp [hne x hx]
        simp only [hfil] at hlen
        have herase := AList.length_keys_erase_add h.clients c
        by_cases hcm : c ∈ h.clients
        · rw [List.filter_cons_of_pos (by simp [hcm, hfull])]
          rw [if_pos hcm] at herase
          simp only [List.length_cons]
          omega
        · rw [List.filter_cons_of_neg (by simp [hcm])]
          rw [if_neg hcm] at herase
          omega

/-- With room in every listed mailbox the fan-out loop only appends the frame to
the listed mailboxes. -/
theorem Hub.pushAll_of_hasRoom (data : Bytes) :
    ∀ (l : List Client) (h : Hub), l.Nodup → (∀ c ∈ l, (h.send c).hasRoom) →
      ∃ h1, h.pushAll data l = .done h1 ∧ h1.clients = h.clients ∧
        h1.userClients = h.userClients ∧
        ∀ c, h1.send c = if c ∈ l then Chan.afterPush (h.send c) data else h.send c := by
  intro l
  induction l with
  | nil =>
    intro h _ _
    exact ⟨h, rfl, rfl, rfl, by simp⟩
  | cons c cs ih =>
    intro h hnd hroom
    have hc_notin : c ∉ cs := (List.nodup_cons.mp hnd).1
    have hne : ∀ x ∈ cs, x ≠ c := fun x hx hxc => hc_notin (hxc ▸ hx)
    have hstep := Hub.pushOrEvict_of_hasRoom h c data (hroom c (List.mem_cons_self c cs))
    obtain ⟨h1, hrun, hcl, huc, hsend⟩ :=
      ih { h with send := Function.update h.send c (Chan.afterPush (h.send c) data) }
        (List.nodup_cons.mp hnd).2
        (by
          intro x hx
          simp only [Function.update_noteq (hne x hx)]
          exact hroom x (List.mem_cons_of_mem c hx))
    refine ⟨h1, ?_, hcl, huc, ?_⟩
    · simp only [Hub.pushAll, hstep, Outcome.bind_done]
      exact hrun
    · intro x
      rw [hsend x]
      by_cases hxc : x = c
      · subst hxc
        simp [hc_notin]
      · by_cases hx : x ∈ cs
        · simp [hx, Function.update_noteq hxc]
        · simp [hx, hxc, Function.update_noteq hxc]

theorem Chan.afterPush_of_hasRoom {ch : Chan} (data : Bytes) (h : ch.hasRoom) :
    Chan.afterPush ch data = { ch with buf := ch.buf ++ [data] } := by
  simp [Chan.afterPush, h.2]

theorem Chan.afterPush_of_full {ch : Chan} (data : Bytes) (h : ch.full) :
    Chan.afterPush ch data = { ch with closed := true } := by
  have hn : ¬ ch.buf.length < ch.cap := Nat.not_lt.mpr h.2
  simp [Chan.afterPush, hn]

/-- The call `SendToUser` once the envelope is serialized: the early return for a user
without sessions, the fan-out loop otherwise. -/
theorem Hub.SendToUser_of_ok {α : Type} (jsonMarshal : α → Except GoError Bytes)
    (h : Hub) (userID : UUID) (message : α) (data : Bytes)
    (hser : jsonMarshal message = .ok data) :
    h.SendToUser jsonMarshal userID message =
      (h.pushAll data (h.sessionsOf userID)).map fun h1 => (h1, none) := by
  unfold Hub.SendToUser Hub.sessionsOf
  rw [hser]
  cases hl : h.userClients.lookup userID with
  | none => simp [Hub.pushAll, Outcome.map]
  | some l =>
    cases l with
    | nil => simp [Hub.pushAll, Outcome.map]
    | cons c cs => simp

/-! ## Runs of the control loop -/

theorem Hub.run_append {α : Type} (m : Message → Except GoError Bytes)
    (j : α → Except GoError Bytes) (es fs : List (Event α)) :
    ∀ h : Hub, h.run m j (es ++ fs) = (h.run m j es).bind fun h1 => h1.run m j fs := by
  induction es with
  | nil => intro h; rfl
  | cons e es ih =>
    intro h
    simp only [List.cons_append, Hub.run]
    cases h.step m j e with
    | done h1 => simpa using ih h1
    | blocks => rfl
    | panics => rfl

theorem Hub.run_snoc {α : Type} (m : Message → Except GoError Bytes)
    (j : α → Except GoError Bytes) (es : List (Event α)) (e : Event α) (h : Hub) :
    h.run m j (es ++ [e]) = (h.run m j es).bind fun h1 => h1.step m j e := by
  rw [Hub.run_append]
  congr 1
  funext h1
  simp only [Hub.run]
  cases h1.step m j e <;> rfl

theorem Hub.run_snoc_done {α : Type} (m : Message → Except GoError Bytes)
    (j : α → Except GoError Bytes) (es : List (Event α)) (e : Event α) (h h2 : Hub)
    (hr : h.run m j (es ++ [e]) = .done h2) :
    ∃ h1, h.run m j es = .done h1 ∧ h1.step m j e = .done h2 := by
  rw [Hub.run_snoc] at hr
  cases hrun : h.run m j es with
  | done h1 => rw [hrun] at hr; exact ⟨h1, rfl, hr⟩
  | blocks => rw [hrun] at hr; cases hr
  | panics => rw [hrun] at hr; cases hr

/-- What the register case leaves behind when it ends normally. -/
theorem Hub.register_done (m : Message → Except GoError Bytes) (h h1 : Hub)
    (c : Client) (now : Time) (hr : h.register m c now = .done h1) :
    h1.clients = h.clients.insert c true ∧
      h1.userClients = h.userClients.insert c.userID (h.sessionsOf c.userID ++ [c]) ∧
      (∀ x, x ≠ c → h1.send x = h.send x) ∧
      (∀ x, (h1.send x).closed = (h.send x).closed) := by
  unfold Hub.register at hr
  cases hm : m (welcomeMsg now) with
  | error err =>
    simp only [hm, Outcome.done.injEq] at hr
    subst hr
    exact ⟨rfl, rfl, fun _ _ => rfl, fun _ => rfl⟩
  | ok data =>
    simp only [hm, Chan.send] at hr
    by_cases hc : (h.send c).closed = true
    · simp [hc] at hr
    · by_cases hl : (h.send c).buf.length < (h.send c).cap
      · have hc0 : (h.send c).closed = false := by simpa using hc
        simp only [hc0, hl, if_true, Bool.false_eq_true, if_false, Outcome.bind_done,
          Outcome.done.injEq] at hr
        subst hr
        refine ⟨rfl, rfl, ?_, ?_⟩
        · intro x hx
          simp [Function.update_noteq hx]
        · intro x
          by_cases hx : x = c
          · subst hx
            simp [hc0]
          · simp [Function.update_noteq hx]
      · simp [hc, hl] at hr

/-- The register case ends normally when the mailbox of the client has room. -/
theorem Hub.register_of_hasRoom (m : Message → Except GoError Bytes) (h : Hub)
    (c : Client) (now : Time) (hroom : (h.send c).hasRoom) :
    ∃ h1, h.register m c now = .done h1 := by
  unfold Hub.register
  cases hm : m (welcomeMsg now) with
  | error err => exact ⟨_, rfl⟩
  | ok data =>
    obtain ⟨hc, hl⟩ := hroom
    simp [Chan.send, hc, hl]

/-- The unregister case on a client that is not in the global set. -/
theorem Hub.unregister_of_not_mem (h : Hub) (c : Client) (hc : c ∉ h.clients) :
    h.unregister c = .done h := by
  simp [Hub.unregister, hc]

/-- The unregister case on a client of the global set whose mailbox is open. -/
theorem Hub.unregister_of_mem (h : Hub) (c : Client) (hc : c ∈ h.clients)
    (hopen : (h.send c).closed = false) :
    h.unregister c = .done
      { clients := h.clients.erase c
        userClients :=
          if ((((if c ∈ h.sessionsOf c.userID then
                  h.userClients.insert c.userID ((h.sessionsOf c.userID).erase c)
                else h.userClients).lookup c.userID).getD []).length = 0) then
            (if c ∈ h.sessionsOf c.userID then
              h.userClients.insert c.userID ((h.sessionsOf c.userID).erase c)
            else h.userClients).erase c.userID
          else
            (if c ∈ h.sessionsOf c.userID then
              h.userClients.insert c.userID ((h.sessionsOf c.userID).erase c)
            else h.userClients)
        send := Function.update h.send c { h.send c with closed := true } } := by
  simp [Hub.unregister, hc, Chan.close, hopen]

/-- Whenever the unregister case ends normally, the global set has lost the
client and nothing else. -/
theorem Hub.unregister_done_clients (h h1 : Hub) (c : Client)
    (hr : h.unregister c = .done h1) :
    ∀ s, s ∈ h1.clients ↔ s ≠ c ∧ s ∈ h.clients := by
  intro s
  by_cases hc : c ∈ h.clients
  · by_cases hopen : (h.send c).closed = false
    · rw [Hub.unregister_of_mem h c hc hopen] at hr
      simp only [Outcome.done.injEq] at hr
      subst hr
      simp [AList.mem_erase]
    · simp [Hub.unregister, hc, Chan.close, hopen] at hr
  · rw [Hub.unregister_of_not_mem h c hc] at hr
    simp only [Outcome.done.injEq] at hr
    subst hr
    constructor
    · intro hs
      exact ⟨fun hsc => hc (hsc ▸ hs), hs⟩
    · exact fun hs => hs.2

/-! ## Histories -/

theorem stillRegistered_snoc {α : Type} (s : Client) (e : Event α) :
    ∀ evs : List (Event α), stillRegistered s (evs ++ [e]) =
      ((stillRegistered s evs && !e.unregisters s) || e.registers s) := by
  intro evs
  induction evs with
  | nil => simp [stillRegistered]
  | cons a evs ih =>
    have hl : stillRegistered s (a :: (evs ++ [e])) =
        ((a.registers s && !(evs ++ [e]).any (Event.unregisters s)) ||
          stillRegistered s (evs ++ [e])) := rfl
    have hr : stillRegistered s (a :: evs) =
        ((a.registers s && !evs.any (Event.unregisters s)) || stillRegistered s evs) := rfl
    rw [List.cons_append, hl, hr, ih, List.any_append]
    simp only [List.any_cons, List.any_nil, Bool.or_false]
    cases a.registers s <;> cases evs.any (Event.unregisters s) <;>
      cases e.unregisters s <;> cases e.registers s <;>
      cases stillRegistered s evs <;> rfl

theorem registeredSessions_snoc {α : Type} (evs : List (Event α)) (e : Event α) :
    registeredSessions (evs ++ [e]) =
      registeredSessions evs ++ (e.registered?).toList := by
  unfold registeredSessions
  rw [List.filterMap_append]
  cases h : e.registered? <;> simp [List.filterMap, h]

theorem mem_registeredSessions_of_stillRegistered {α : Type} (s : Client) :
    ∀ evs : List (Event α), stillRegistered s evs = true → s ∈ registeredSessions evs := by
  intro evs
  induction evs with
  | nil => intro h; simp [stillRegistered] at h
  | cons e evs ih =>
    intro h
    simp only [stillRegistered, Bool.or_eq_true, Bool.and_eq_true] at h
    rcases h with ⟨hreg, _⟩ | hrest
    · cases e with
      | register c now =>
        simp only [Event.registers, decide_eq_true_eq] at hreg
        subst hreg
        simp [registeredSessions, List.filterMap, Event.registered?]
      | unregister c => simp [Event.registers] at hreg
      | broadcast b => simp [Event.registers] at hreg
      | sendToUser u msg => simp [Event.registers] at hreg
    · have := ih hrest
      unfold registeredSessions at this ⊢
      rw [List.filterMap_cons]
      cases e.registered? with
      | none => exact this
      | some c => exact List.mem_cons_of_mem c this

theorem mem_liveSessions {α : Type} (evs : List (Event α)) (s : Client) :
    s ∈ liveSessions evs ↔ stillRegistered s evs = true := by
  unfold liveSessions
  rw [List.mem_filter, List.mem_dedup]
  constructor
  · exact fun h => h.2
  · exact fun h => ⟨mem_registeredSessions_of_stillRegistered s evs h, h⟩

theorem nodup_liveSessions {α : Type} (evs : List (Event α)) : (liveSessions evs).Nodup := by
  unfold liveSessions
  exact (List.nodup_dedup _).filter _

theorem mem_liveUsers {α : Type} (evs : List (Event α)) (u : UUID) :
    u ∈ liveUsers evs ↔ ∃ s, stillRegistered s evs = true ∧ s.userID = u := by
  unfold liveUsers
  rw [List.mem_dedup, List.mem_map]
  constructor
  · rintro ⟨s, hs, hu⟩
    exact ⟨s, (mem_liveSessions evs s).mp hs, hu⟩
  · rintro ⟨s, hs, hu⟩
    exact ⟨s, (mem_liveSessions evs s).mpr hs, hu⟩

/-- After a run of registrations and unregistrations from the empty hub, the
global set holds exactly the sessions registered and not yet unregistered. -/
theorem Hub.mem_clients_iff_stillRegistered {α : Type}
    (m : Message → Except GoError Bytes) (j : α → Except GoError Bytes) :
    ∀ (evs : List (Event α)) (h : Hub), (∀ e ∈ evs, e.isMembership = true) →
      NewHub.run m j evs = .done h →
      ∀ s, s ∈ h.clients ↔ stillRegistered s evs = true := by
  intro evs
  induction evs using List.reverseRecOn with
  | nil =>
    intro h _ hr s
    simp only [Hub.run, Outcome.done.injEq] at hr
    subst hr
    simp [NewHub, stillRegistered]
  | append_singleton evs e ih =>
    intro h2 hmem hr s
    obtain ⟨h1, hrun, hstep⟩ := Hub.run_snoc_done m j evs e NewHub h2 hr
    have hprev := ih h1 (fun x hx => hmem x (List.mem_append_left _ hx)) hrun s
    rw [stillRegistered_snoc]
    cases e with
    | register c now =>
      obtain ⟨hcl, _⟩ := Hub.register_done m h1 h2 c now hstep
      rw [hcl, AList.mem_insert, hprev]
      simp only [Event.unregisters, Event.registers, Bool.not_false, Bool.and_true,
        Bool.or_eq_true, decide_eq_true_eq]
      constructor
      · rintro (hs | hs)
        · exact Or.inr hs.symm
        · exact Or.inl hs
      · rintro (hs | hs)
        · exact Or.inr hs
        · exact Or.inl hs.symm
    | unregister c =>
      rw [Hub.unregister_done_clients h1 h2 c hstep s, hprev]
      simp only [Event.unregisters, Event.registers, Bool.or_false, Bool.and_eq_true,
        Bool.not_eq_true', decide_eq_false_iff_not]
      constructor
      · rintro ⟨hne, hs⟩
        exact ⟨hs, fun hcs => hne hcs.symm⟩
      · rintro ⟨hs, hne⟩
        exact ⟨fun hcs => hne hcs.symm, hs⟩
    | broadcast b =>
      have := hmem (Event.broadcast b) (by simp)
      simp [Event.isMembership] at this
    | sendToUser u msg =>
      have := hmem (Event.sendToUser u msg) (by simp)
      simp [Event.isMembership] at this

/-! ## Consistency of the tables -/

theorem Hub.Consistent.mem_sessionsOf {h : Hub} (hc : h.Consistent) {u : UUID} {s : Client}
    (hs : s ∈ h.sessionsOf u) : s.userID = u ∧ s ∈ h.clients := by
  unfold Hub.sessionsOf at hs
  cases hl : h.userClients.lookup u with
  | none => simp [hl] at hs
  | some l =>
    simp only [hl, Option.getD_some] at hs
    exact (hc.1 u l hl).2.2 s hs

theorem Hub.Consistent.nodup_sessionsOf {h : Hub} (hc : h.Consistent) (u : UUID) :
    (h.sessionsOf u).Nodup := by
  unfold Hub.sessionsOf
  cases hl : h.userClients.lookup u with
  | none => simp
  | some l => simpa using (hc.1 u l hl).2.1

/-- In a consistent hub the users with an entry are the users of the sessions of
the global set. -/
theorem Hub.Consistent.mem_userClients_iff {h : Hub} (hc : h.Consistent) (u : UUID) :
    u ∈ h.userClients ↔ ∃ s, s ∈ h.clients ∧ s.userID = u := by
  constructor
  · intro hu
    rw [← AList.lookup_isSome] at hu
    cases hl : h.userClients.lookup u with
    | none => simp [hl] at hu
    | some l =>
      obtain ⟨hne, _, hmem⟩ := hc.1 u l hl
      cases l with
      | nil => exact absurd rfl hne
      | cons s rest =>
        exact ⟨s, (hmem s (List.mem_cons_self s rest)).2,
          (hmem s (List.mem_cons_self s rest)).1⟩
  · rintro ⟨s, hs, hu⟩
    have hin := hc.2.1 s hs
    rw [hu] at hin
    unfold Hub.sessionsOf at hin
    rw [← AList.lookup_isSome]
    cases hl : h.userClients.lookup u with
    | none => simp [hl] at hin
    | some l => rfl

theorem NewHub_consistent : NewHub.Consistent := by
  refine ⟨?_, ?_, ?_⟩
  · intro u l hl
    simp [NewHub] at hl
  · intro s hs
    simp [NewHub] at hs
  · intro s hs
    simp [NewHub] at hs

/-- Registering a session that is not in the global set and whose mailbox is open
keeps the tables consistent. -/
theorem Hub.Consistent.register {h : Hub} (hc : h.Consistent)
    (m : Message → Except GoError Bytes) (c : Client) (now : Time) (h1 : Hub)
    (hnew : c ∉ h.clients) (hopen : (h.send c).closed = false)
    (hr : h.register m c now = .done h1) : h1.Consistent := by
  obtain ⟨hcl, huc, _, hclosed⟩ := Hub.register_done m h h1 c now hr
  have hnotin : c ∉ h.sessionsOf c.userID := fun hin => hnew (hc.mem_sessionsOf hin).2
  refine ⟨?_, ?_, ?_⟩
  · intro u l hl
    rw [huc] at hl
    by_cases hu : u = c.userID
    · subst hu
      rw [AList.lookup_insert] at hl
      simp only [Option.some.injEq] at hl
      subst hl
      refine ⟨by simp, ?_, ?_⟩
      · rw [List.nodup_append]
        refine ⟨hc.nodup_sessionsOf _, List.nodup_singleton c, ?_⟩
        intro x hx hx2
        rw [List.mem_singleton] at hx2
        exact hnotin (hx2 ▸ hx)
      · intro s hs
        rw [List.mem_append, List.mem_singleton] at hs
        rw [hcl, AList.mem_insert]
        rcases hs with hs | hs
        · exact ⟨(hc.mem_sessionsOf hs).1, Or.inr (hc.mem_sessionsOf hs).2⟩
        · exact ⟨by rw [hs], Or.inl hs⟩
    · rw [AList.lookup_insert_ne hu] at hl
      obtain ⟨hne, hnd, hmem⟩ := hc.1 u l hl
      refine ⟨hne, hnd, fun s hs => ⟨(hmem s hs).1, ?_⟩⟩
      rw [hcl, AList.mem_insert]
      exact Or.inr (hmem s hs).2
  · intro s hs
    rw [hcl, AList.mem_insert] at hs
    unfold Hub.sessionsOf
    rw [huc]
    by_cases hu : s.userID = c.userID
    · rw [hu, AList.lookup_insert]
      simp only [Option.getD_some, List.mem_append, List.mem_singleton]
      rcases hs with hs | hs
      · exact Or.inr hs
      · left
        have := hc.2.1 s hs
        rwa [hu] at this
    · rw [AList.lookup_insert_ne hu]
      rcases hs with hs | hs
      · exact absurd (by rw [hs]) hu
      · exact hc.2.1 s hs
  · intro s hs
    rw [hcl, AList.mem_insert] at hs
    rw [hclosed s]
    rcases hs with hs | hs
    · rw [hs]; exact hopen
    · exact hc.2.2 s hs

/-- The unregister case on a session of the global set of a consistent hub. -/
theorem Hub.Consistent.unregister_eq {h : Hub} (hc : h.Consistent) (c : Client)
    (hmem : c ∈ h.clients) :
    h.unregister c = .done
      { clients := h.clients.erase c
        userClients :=
          if (h.sessionsOf c.userID).erase c = [] then
            (h.userClients.insert c.userID ((h.sessionsOf c.userID).erase c)).erase c.userID
          else h.userClients.insert c.userID ((h.sessionsOf c.userID).erase c)
        send := Function.update h.send c { h.send c with closed := true } } := by
  rw [Hub.unregister_of_mem h c hmem (hc.2.2 c hmem)]
  have hin : c ∈ h.sessionsOf c.userID := hc.2.1 c hmem
  simp only [hin, if_true, AList.lookup_insert, Option.getD_some, List.length_eq_zero]

/-- Unregistering keeps the tables consistent, and always ends normally. -/
theorem Hub.Consistent.unregister {h : Hub} (hc : h.Consistent) (c : Client) :
    ∃ h1, h.unregister c = .done h1 ∧ h1.Consistent ∧
      (∀ x, x ≠ c → h1.send x = h.send x) ∧ (c ∉ h.clients → h1 = h) := by
  by_cases hmem : c ∈ h.clients
  · refine ⟨_, hc.unregister_eq c hmem, ?_, ?_, fun hn => absurd hmem hn⟩
    · have hnd := hc.nodup_sessionsOf c.userID
      refine ⟨?_, ?_, ?_⟩
      · intro u l hl
        simp only at hl
        by_cases hu : u = c.userID
        · subst hu
          by_cases he : (h.sessionsOf c.userID).erase c = []
          · rw [if_pos he, AList.lookup_erase] at hl
            cases hl
          · rw [if_neg he, AList.lookup_insert] at hl
            simp only [Option.some.injEq] at hl
            subst hl
            refine ⟨he, hnd.erase c, ?_⟩
            intro s hs
            rw [hnd.mem_erase_iff] at hs
            refine ⟨(hc.mem_sessionsOf hs.2).1, ?_⟩
            simp only [AList.mem_erase]
            exact ⟨hs.1, (hc.mem_sessionsOf hs.2).2⟩
        · have hl2 : h.userClients.lookup u = some l := by
            by_cases he : (h.sessionsOf c.userID).erase c = []
            · rw [if_pos he, AList.lookup_erase_ne hu, AList.lookup_insert_ne hu] at hl
              exact hl
            · rw [if_neg he, AList.lookup_insert_ne hu] at hl
              exact hl
          obtain ⟨hne, hnd2, hm⟩ := hc.1 u l hl2
          refine ⟨hne, hnd2, fun s hs => ⟨(hm s hs).1, ?_⟩⟩
          simp only [AList.mem_erase]
          refine ⟨?_, (hm s hs).2⟩
          intro hsc
          exact hu (by rw [← (hm s hs).1, hsc])
      · intro s hs
        simp only [AList.mem_erase] at hs
        have hin := hc.2.1 s hs.2
        by_cases hu : s.userID = c.userID
        · rw [hu] at hin
          have hin2 : s ∈ (h.sessionsOf c.userID).erase c := by
            rw [hnd.mem_erase_iff]
            exact ⟨hs.1, hin⟩
          have he : (h.sessionsOf c.userID).erase c ≠ [] := List.ne_nil_of_mem hin2
          unfold Hub.sessionsOf at he hin2 ⊢
          simp only
          rw [if_neg he, hu, AList.lookup_insert]
          exact hin2
        · by_cases he : (h.sessionsOf c.userID).erase c = []
          · unfold Hub.sessionsOf at he hin ⊢
            simp only
            rw [if_pos he, AList.lookup_erase_ne hu, AList.lookup_insert_ne hu]
            exact hin
          · unfold Hub.sessionsOf at he hin ⊢
            simp only
            rw [if_neg he, AList.lookup_insert_ne hu]
            exact hin
      · intro s hs
        simp only [AList.mem_erase] at hs
        simp only [Function.update_noteq hs.1]
        exact hc.2.2 s hs.2
    · intro x hx
      simp [Function.update_noteq hx]
  · exact ⟨h, Hub.unregister_of_not_mem h c hmem, hc, fun _ _ => rfl, fun _ => rfl⟩

/-- A run of registrations and unregistrations in which no session is registered
twice ends normally in a consistent hub, and the mailbox of a session that has
not been registered is as `HandleWebSocket` made it. -/
theorem Hub.run_registeredOnce {α : Type} (m : Message → Except GoError Bytes)
    (j : α → Except GoError Bytes) :
    ∀ evs : List (Event α), (∀ e ∈ evs, e.isMembership = true) → RegisteredOnce evs →
      ∃ h, NewHub.run m j evs = .done h ∧ h.Consistent ∧
        ∀ s, s ∉ registeredSessions evs → h.send s = makeChan 256 := by
  intro evs
  induction evs using List.reverseRecOn with
  | nil =>
    intro _ _
    exact ⟨NewHub, rfl, NewHub_consistent, fun _ _ => rfl⟩
  | append_singleton evs e ih =>
    intro hmem honce
    unfold RegisteredOnce at honce
    rw [registeredSessions_snoc, List.nodup_append] at honce
    have hmem1 : ∀ x ∈ evs, x.isMembership = true :=
      fun x hx => hmem x (List.mem_append_left _ hx)
    obtain ⟨h1, hrun, hcons, hfresh⟩ := ih hmem1 honce.1
    have hclients := Hub.mem_clients_iff_stillRegistered m j evs h1 hmem1 hrun
    cases e with
    | register c now =>
      have hc_new : c ∉ registeredSessions evs := by
        intro hin
        exact honce.2.2 hin (by simp [Event.registered?])
      have hchan : h1.send c = makeChan 256 := hfresh c hc_new
      have hroom : (h1.send c).hasRoom := by
        rw [hchan]
        exact ⟨rfl, by decide⟩
      have hnotin : c ∉ h1.clients := by
        intro hin
        exact hc_new
          (mem_registeredSessions_of_stillRegistered c evs ((hclients c).mp hin))
      obtain ⟨h2, hstep⟩ := Hub.register_of_hasRoom m h1 c now hroom
      refine ⟨h2, ?_, hcons.register m c now h2 hnotin hroom.1 hstep, ?_⟩
      · rw [Hub.run_snoc, hrun]
        exact hstep
      · intro s hs
        rw [registeredSessions_snoc] at hs
        simp only [Event.registered?, Option.toList_some, List.mem_append,
          List.mem_singleton, not_or] at hs
        rw [(Hub.register_done m h1 h2 c now hstep).2.2.1 s hs.2]
        exact hfresh s hs.1
    | unregister c =>
      obtain ⟨h2, hstep, hcons2, hsend, hsame⟩ := hcons.unregister c
      refine ⟨h2, ?_, hcons2, ?_⟩
      · rw [Hub.run_snoc, hrun]
        exact hstep
      · intro s hs
        rw [registeredSessions_snoc] at hs
        simp only [Event.registered?, Option.toList_none, List.append_nil] at hs
        by_cases hsc : s = c
        · have hnotin : c ∉ h1.clients := by
            intro hin
            exact hs (hsc ▸
              mem_registeredSessions_of_stillRegistered c evs ((hclients c).mp hin))
          rw [hsame hnotin]
          exact hfresh s hs
        · rw [hsend s hsc]
          exact hfresh s hs
    | broadcast b =>
      have := hmem (Event.broadcast b) (by simp)
      simp [Event.isMembership] at this
    | sendToUser u msg =>
      have := hmem (Event.sendToUser u msg) (by simp)
      simp [Event.isMembership] at this

theorem Hub.GetTotalConnections_eq_keys (h : Hub) :
    h.GetTotalConnections = h.clients.keys.length := by
  simp [Hub.GetTotalConnections, AList.keys, List.keys]

theorem Hub.GetConnectedUsers_eq_keys (h : Hub) :
    h.GetConnectedUsers = h.userClients.keys.length := by
  simp [Hub.GetConnectedUsers, AList.keys, List.keys]

/-! ## The register case -/

/-- The register case when the welcome message is serialized and the mailbox has
room: both tables get the client and the welcome frame goes to the tail of its
mailbox. -/
theorem Hub.register_of_ok_hasRoom (m : Message → Except GoError Bytes) (h : Hub)
    (c : Client) (now : Time) (data : Bytes) (hm : m (welcomeMsg now) = .ok data)
    (hroom : (h.send c).hasRoom) :
    h.register m c now = .done
      { clients := h.clients.insert c true
        userClients := h.userClients.insert c.userID (h.sessionsOf c.userID ++ [c])
        send := Function.update h.send c
          { h.send c with buf := (h.send c).buf ++ [data] } } := by
  obtain ⟨hc, hl⟩ := hroom
  simp [Hub.register, hm, Chan.send, hc, hl]

/-- The register case when the welcome message is serialized and the mailbox is
full: the plain send parks the control loop. -/
theorem Hub.register_of_ok_full (m : Message → Except GoError Bytes) (h : Hub)
    (c : Client) (now : Time) (data : Bytes) (hm : m (welcomeMsg now) = .ok data)
    (hfull : (h.send c).full) : h.register m c now = .blocks := by
  obtain ⟨hc, hl⟩ := hfull
  have hn : ¬ (h.send c).buf.length < (h.send c).cap := Nat.not_lt.mpr hl
  simp [Hub.register, hm, Chan.send, hc, hn]

theorem AList.length_keys_insert_of_not_mem {κ : Type} [DecidableEq κ] {β : κ → Type}
    (m : AList β) (k : κ) (v : β k) (hk : k ∉ m) :
    (m.insert k v).keys.length = m.keys.length + 1 := by
  rw [AList.keys_insert]
  have hk2 : k ∉ m.keys := fun hmem => hk (AList.mem_keys.mpr hmem)
  rw [List.erase_of_not_mem hk2]
  rfl

theorem AList.length_keys_erase_of_mem {κ : Type} [DecidableEq κ] {β : κ → Type}
    (m : AList β) (k : κ) (hk : k ∈ m) :
    (m.erase k).keys.length + 1 = m.keys.length := by
  rw [AList.keys_erase]
  have hk2 : k ∈ m.keys := AList.mem_keys.mp hk
  rw [List.length_erase_of_mem hk2]
  have : 0 < m.keys.length := List.length_pos_of_mem hk2
  omega

/-! ## The fan-out loop in general -/

/-- What one round of the fan-out loop leaves behind whenever it ends normally:
`userClients` and the other mailboxes are untouched, the global set does not
grow, the mailbox of the client keeps what it held, and a client that is still in
the global set got the frame at the tail of its mailbox. -/
theorem Hub.pushOrEvict_done (h h1 : Hub) (c : Client) (data : Bytes)
    (hr : h.pushOrEvict c data = .done h1) :
    h1.userClients = h.userClients ∧ (∀ x, x ≠ c → h1.send x = h.send x) ∧
      (∀ x, x ∈ h1.clients → x ∈ h.clients) ∧
      (∀ x, x ≠ c → (x ∈ h1.clients ↔ x ∈ h.clients)) ∧
      (∃ t, (h1.send c).buf = (h.send c).buf ++ t) ∧
      (c ∈ h1.clients → (h1.send c).buf = (h.send c).buf ++ [data]) := by
  by_cases hcl : (h.send c).closed = true
  · rw [Hub.pushOrEvict_of_closed h c data hcl] at hr
    cases hr
  · have hopen : (h.send c).closed = false := by simpa using hcl
    rcases Chan.full_or_hasRoom_of_open _ hopen with hroom | hfull
    · rw [Hub.pushOrEvict_of_hasRoom h c data hroom] at hr
      simp only [Outcome.done.injEq] at hr
      subst hr
      refine ⟨rfl, ?_, fun _ hx => hx, fun _ _ => Iff.rfl, ⟨[data], ?_⟩, fun _ => ?_⟩
      · intro x hx
        simp [Function.update_noteq hx]
      · simp [Chan.afterPush_of_hasRoom data hroom]
      · simp [Chan.afterPush_of_hasRoom data hroom]
    · rw [Hub.pushOrEvict_of_full h c data hfull] at hr
      simp only [Outcome.done.injEq] at hr
      subst hr
      refine ⟨rfl, ?_, ?_, ?_, ⟨[], ?_⟩, ?_⟩
      · intro x hx
        simp [Function.update_noteq hx]
      · intro x hx
        simp only [AList.mem_erase] at hx
        exact hx.2
      · intro x hx
        simp [AList.mem_erase, hx]
      · simp [Chan.afterPush_of_full data hfull]
      · intro hin
        simp [AList.mem_erase] at hin

/-- What the fan-out loop leaves behind whenever it ends normally. -/
theorem Hub.pushAll_done (data : Bytes) (c : Client) :
    ∀ (l : List Client) (h h1 : Hub), h.pushAll data l = .done h1 →
      h1.userClients = h.userClients ∧ (c ∈ h1.clients → c ∈ h.clients) ∧
        (c ∉ l → h1.send c = h.send c ∧ (c ∈ h1.clients ↔ c ∈ h.clients)) ∧
        (∃ t, (h1.send c).buf = (h.send c).buf ++ t) ∧
        (l.Nodup → c ∈ l → c ∈ h1.clients →
          (h1.send c).buf = (h.send c).buf ++ [data]) := by
  intro l
  induction l with
  | nil =>
    intro h h1 hr
    simp only [Hub.pushAll, Outcome.done.injEq] at hr
    subst hr
    exact ⟨rfl, fun hx => hx, fun _ => ⟨rfl, Iff.rfl⟩, ⟨[], by simp⟩, fun _ hc => by simp at hc⟩
  | cons x xs ih =>
    intro h h1 hr
    simp only [Hub.pushAll] at hr
    cases hstep : h.pushOrEvict x data with
    | blocks => rw [hstep] at hr; cases hr
    | panics => rw [hstep] at hr; cases hr
    | done h0 =>
      rw [hstep, Outcome.bind_done] at hr
      obtain ⟨huc0, hsend0, hsub0, hiff0, hpre0, hpush0⟩ :=
        Hub.pushOrEvict_done h h0 x data hstep
      obtain ⟨huc, hsub, hout, hpre, hpush⟩ := ih h0 h1 hr
      refine ⟨huc.trans huc0, fun hc => hsub0 c (hsub hc), ?_, ?_, ?_⟩
      · intro hc
        simp only [List.mem_cons, not_or] at hc
        obtain ⟨hs, hm⟩ := hout hc.2
        exact ⟨hs.trans (hsend0 c hc.1), hm.trans (hiff0 c hc.1)⟩
      · obtain ⟨t, ht⟩ := hpre
        by_cases hcx : c = x
        · subst hcx
          obtain ⟨t0, ht0⟩ := hpre0
          exact ⟨t0 ++ t, by rw [ht, ht0, List.append_assoc]⟩
        · exact ⟨t, by rw [ht, hsend0 c hcx]⟩
      · intro hnd hc hin
        have hx_notin : x ∉ xs := (List.nodup_cons.mp hnd).1
        by_cases hcx : c = x
        · subst hcx
          obtain ⟨hs, _⟩ := hout hx_notin
          rw [hs]
          exact hpush0 (hsub hin)
        · have hc2 : c ∈ xs := by
            rcases List.mem_cons.mp hc with h1 | h1
            · exact absurd h1 hcx
            · exact h1
          rw [hpush (List.nodup_cons.mp hnd).2 hc2 hin, hsend0 c hcx]

/-- The register case only adds to the tail of mailboxes. -/
theorem Hub.register_buf (m : Message → Except GoError Bytes) (h h1 : Hub)
    (c : Client) (now : Time) (hr : h.register m c now = .done h1) :
    ∀ x, ∃ t, (h1.send x).buf = (h.send x).buf ++ t := by
  intro x
  by_cases hx : x = c
  · subst hx
    unfold Hub.register at hr
    cases hm : m (welcomeMsg now) with
    | error err =>
      simp only [hm, Outcome.done.injEq] at hr
      subst hr
      exact ⟨[], by simp⟩
    | ok data =>
      simp only [hm, Chan.send] at hr
      by_cases hc : (h.send x).closed = true
      · simp [hc] at hr
      · have hc0 : (h.send x).closed = false := by simpa using hc
        by_cases hl : (h.send x).buf.length < (h.send x).cap
        · simp only [hc0, hl, if_true, Bool.false_eq_true, if_false, Outcome.bind_done,
            Outcome.done.injEq] at hr
          subst hr
          exact ⟨[data], by simp⟩
        · simp [hc0, hl] at hr
  · exact ⟨[], by rw [(Hub.register_done m h h1 c now hr).2.2.1 x hx]; simp⟩

/-- The unregister case leaves the content of every mailbox as it is. -/
theorem Hub.unregister_buf (h h1 : Hub) (c : Client) (hr : h.unregister c = .done h1) :
    ∀ x, (h1.send x).buf = (h.send x).buf := by
  intro x
  by_cases hc : c ∈ h.clients
  · by_cases hopen : (h.send c).closed = false
    · rw [Hub.unregister_of_mem h c hc hopen] at hr
      simp only [Outcome.done.injEq] at hr
      subst hr
      by_cases hx : x = c
      · subst hx; simp
      · simp [Function.update_noteq hx]
    · simp [Hub.unregister, hc, Chan.close, hopen] at hr
  · rw [Hub.unregister_of_not_mem h c hc] at hr
    simp only [Outcome.done.injEq] at hr
    subst hr
    rfl

/-- No event handled by the hub removes or reorders what a mailbox holds: the
new content is the old one followed by what the event pushed. -/
theorem Hub.step_buf {α : Type} (m : Message → Except GoError Bytes)
    (j : α → Except GoError Bytes) (h h1 : Hub) (e : Event α)
    (hr : h.step m j e = .done h1) :
    ∀ x, ∃ t, (h1.send x).buf = (h.send x).buf ++ t := by
  intro x
  cases e with
  | register c now => exact Hub.register_buf m h h1 c now hr x
  | unregister c => exact ⟨[], by rw [Hub.unregister_buf h h1 c hr x]; simp⟩
  | broadcast b => exact (Hub.pushAll_done b x _ h h1 hr).2.2.2.1
  | sendToUser u msg =>
    simp only [Hub.step] at hr
    cases hj : j msg with
    | error err =>
      simp only [Hub.SendToUser, hj, Outcome.map_done, Outcome.done.injEq] at hr
      subst hr
      exact ⟨[], by simp⟩
    | ok data =>
      rw [Hub.SendToUser_of_ok j h u msg data hj] at hr
      cases hp : h.pushAll data (h.sessionsOf u) with
      | blocks => rw [hp] at hr; cases hr
      | panics => rw [hp] at hr; cases hr
      | done h2 =>
        rw [hp] at hr
        simp only [Outcome.map, Outcome.bind_done, Outcome.done.injEq] at hr
        subst hr
        exact (Hub.pushAll_done data x _ h h2 hp).2.2.2.1

/-! ## Mailboxes and writer loops -/

theorem textFrames_append (a b : List Frame) :
    textFrames (a ++ b) = textFrames a ++ textFrames b := by
  induction a with
  | nil => rfl
  | cons f rest ih =>
    cases f with
    | text message => simp [textFrames, ih]
    | ping => simpa [textFrames] using ih
    | close => simpa [textFrames] using ih

/-- An iteration of a writer loop moves the oldest queued frame to the
connection or writes a control frame: the stream of every client is as before,
and so are the tables. -/
theorem World.writePump_stream {α : Type} (m : Message → Except GoError Bytes)
    (j : α → Except GoError Bytes) (w w1 : World) (c : Client) (s : Select)
    (hr : w.step m j (Action.writePump c s) = .done w1) :
    (∀ x, w1.stream x = w.stream x) ∧ w1.hub.clients = w.hub.clients ∧
      w1.hub.userClients = w.hub.userClients := by
  simp only [World.step] at hr
  cases hstep : writePumpStep (w.hub.send c) (w.writer c) s with
  | none => rw [hstep] at hr; cases hr
  | some r =>
    obtain ⟨ch, wr⟩ := r
    rw [hstep] at hr
    simp only [Outcome.done.injEq] at hr
    subst hr
    refine ⟨?_, rfl, rfl⟩
    intro x
    by_cases hx : x = c
    · subst hx
      simp only [World.stream, Function.update_same]
      cases s with
      | recv ok =>
        simp only [writePumpStep] at hstep
        by_cases hret : (w.writer x).returned = true
        · simp [hret] at hstep
        · cases hb : (w.hub.send x).buf with
          | nil =>
            by_cases hcl : (w.hub.send x).closed = true
            · simp only [hret, hb, hcl, if_true, Bool.false_eq_true, if_false,
                Option.some.injEq, Prod.mk.injEq] at hstep
              rw [← hstep.1, ← hstep.2, hb]
              simp [textFrames_append, textFrames]
            · simp [hret, hb, hcl] at hstep
          | cons message rest =>
            simp only [hret, hb, Bool.false_eq_true, if_false, Option.some.injEq,
              Prod.mk.injEq] at hstep
            rw [← hstep.1, ← hstep.2]
            simp [textFrames_append, textFrames]
      | tick ok =>
        simp only [writePumpStep] at hstep
        by_cases hret : (w.writer x).returned = true
        · simp [hret] at hstep
        · simp only [hret, Bool.false_eq_true, if_false, Option.some.injEq,
            Prod.mk.injEq] at hstep
          rw [← hstep.1, ← hstep.2]
          simp [textFrames_append, textFrames]
    · simp [World.stream, Function.update_noteq hx]

/-- Whatever happens next, the stream of a client only grows at its end. -/
theorem World.step_stream {α : Type} (m : Message → Except GoError Bytes)
    (j : α → Except GoError Bytes) (w w1 : World) (a : Action α)
    (hr : w.step m j a = .done w1) : ∀ x, ∃ t, w1.stream x = w.stream x ++ t := by
  intro x
  cases a with
  | writePump c s =>
    exact ⟨[], by rw [(World.writePump_stream m j w w1 c s hr).1 x]; simp⟩
  | hub e =>
    simp only [World.step] at hr
    cases hstep : w.hub.step m j e with
    | blocks => rw [hstep] at hr; cases hr
    | panics => rw [hstep] at hr; cases hr
    | done h1 =>
      rw [hstep] at hr
      simp only [Outcome.map_done, Outcome.done.injEq] at hr
      subst hr
      obtain ⟨t, ht⟩ := Hub.step_buf m j w.hub h1 e hstep x
      exact ⟨t, by simp [World.stream, ht]⟩

theorem World.run_stream {α : Type} (m : Message → Except GoError Bytes)
    (j : α → Except GoError Bytes) (x : Client) :
    ∀ (acts : List (Action α)) (w w1 : World), w.run m j acts = .done w1 →
      ∃ t, w1.stream x = w.stream x ++ t := by
  intro acts
  induction acts with
  | nil =>
    intro w w1 hr
    simp only [World.run, Outcome.done.injEq] at hr
    subst hr
    exact ⟨[], by simp⟩
  | cons a rest ih =>
    intro w w1 hr
    simp only [World.run] at hr
    cases hstep : w.step m j a with
    | blocks => rw [hstep] at hr; cases hr
    | panics => rw [hstep] at hr; cases hr
    | done w0 =>
      rw [hstep, Outcome.bind_done] at hr
      obtain ⟨t0, ht0⟩ := World.step_stream m j w w0 a hstep x
      obtain ⟨t, ht⟩ := ih w0 w1 hr
      exact ⟨t0 ++ t, by rw [ht, ht0, List.append_assoc]⟩

/-- A call of `SendToUser` or a writer iteration, seen from a session `c` that is
listed once, under its own user only, and is still in the global set afterwards:
the tables of users are untouched and the stream of `c` grows by exactly the
envelope sent to its user, if any. -/
theorem World.step_stream_of_registered {α : Type} (m : Message → Except GoError Bytes)
    (j : α → Except GoError Bytes) (w w1 : World) (c : Client) (a : Action α)
    (hkind : a.isSendOrWrite = true)
    (hnd : (w.hub.sessionsOf c.userID).Nodup) (hin : c ∈ w.hub.sessionsOf c.userID)
    (hother : ∀ u, u ≠ c.userID → c ∉ w.hub.sessionsOf u)
    (hr : w.step m j a = .done w1) (hstill : c ∈ w1.hub.clients) :
    w1.hub.userClients = w.hub.userClients ∧ c ∈ w.hub.clients ∧
      w1.stream c = w.stream c ++ sentTo j c.userID [a] := by
  cases a with
  | writePump c0 s =>
    obtain ⟨hs, hcl, huc⟩ := World.writePump_stream m j w w1 c0 s hr
    refine ⟨huc, hcl ▸ hstill, ?_⟩
    rw [hs c]
    simp [sentTo]
  | hub e =>
    cases e with
    | register c0 now => simp [Action.isSendOrWrite] at hkind
    | unregister c0 => simp [Action.isSendOrWrite] at hkind
    | broadcast b => simp [Action.isSendOrWrite] at hkind
    | sendToUser u msg =>
      simp only [World.step, Hub.step] at hr
      cases hj : j msg with
      | error err =>
        simp only [Hub.SendToUser, hj, Outcome.map_done, Outcome.done.injEq] at hr
        subst hr
        refine ⟨rfl, hstill, ?_⟩
        by_cases hu : u = c.userID <;> simp [sentTo, hj, hu]
      | ok data =>
        rw [Hub.SendToUser_of_ok j w.hub u msg data hj] at hr
        cases hp : w.hub.pushAll data (w.hub.sessionsOf u) with
        | blocks => rw [hp] at hr; cases hr
        | panics => rw [hp] at hr; cases hr
        | done h2 =>
          rw [hp] at hr
          simp only [Outcome.map, Outcome.bind_done, Outcome.done.injEq] at hr
          subst hr
          obtain ⟨huc, hsub, hout, _, hpush⟩ := Hub.pushAll_done data c _ w.hub h2 hp
          refine ⟨huc, hsub hstill, ?_⟩
          by_cases hu : u = c.userID
          · subst hu
            have hb := hpush hnd hin hstill
            simp [World.stream, sentTo, hj, hb]
          · have hs := (hout (hother u hu)).1
            simp [World.stream, sentTo, hu, hs]

theorem sentTo_cons {α : Type} (j : α → Except GoError Bytes) (u : UUID) (a : Action α)
    (rest : List (Action α)) : sentTo j u (a :: rest) = sentTo j u [a] ++ sentTo j u rest := by
  cases a with
  | writePump c s => simp [sentTo]
  | hub e =>
    cases e with
    | register c now => simp [sentTo]
    | unregister c => simp [sentTo]
    | broadcast b => simp [sentTo]
    | sendToUser u0 msg => simp [sentTo]

/-- A call of `SendToUser` and a writer iteration leave `userClients` as it is. -/
theorem World.step_userClients {α : Type} (m : Message → Except GoError Bytes)
    (j : α → Except GoError Bytes) (w w1 : World) (a : Action α)
    (hkind : a.isSendOrWrite = true) (hr : w.step m j a = .done w1) :
    w1.hub.userClients = w.hub.userClients := by
  cases a with
  | writePump c0 s => exact (World.writePump_stream m j w w1 c0 s hr).2.2
  | hub e =>
    cases e with
    | register c0 now => simp [Action.isSendOrWrite] at hkind
    | unregister c0 => simp [Action.isSendOrWrite] at hkind
    | broadcast b => simp [Action.isSendOrWrite] at hkind
    | sendToUser u msg =>
      simp only [World.step, Hub.step] at hr
      cases hj : j msg with
      | error err =>
        simp only [Hub.SendToUser, hj, Outcome.map_done, Outcome.done.injEq] at hr
        subst hr
        rfl
      | ok data =>
        rw [Hub.SendToUser_of_ok j w.hub u msg data hj] at hr
        cases hp : w.hub.pushAll data (w.hub.sessionsOf u) with
        | blocks => rw [hp] at hr; cases hr
        | panics => rw [hp] at hr; cases hr
        | done h2 =>
          rw [hp] at hr
          simp only [Outcome.map, Outcome.bind_done, Outcome.done.injEq] at hr
          subst hr
          exact (Hub.pushAll_done data (Client.mk 0 u "") _ w.hub h2 hp).1

/-- A run of `SendToUser` calls and writer iterations, seen from a session `c`
that is listed once, under its own user only, and is still in the global set at
the end: it was in the global set all along, and its stream grew by exactly the
envelopes sent to its user, in the order of the calls. -/
theorem World.run_stream_of_registered {α : Type} (m : Message → Except GoError Bytes)
    (j : α → Except GoError Bytes) (c : Client) :
    ∀ (acts : List (Action α)) (w w1 : World),
      (∀ a ∈ acts, a.isSendOrWrite = true) →
      (w.hub.sessionsOf c.userID).Nodup → c ∈ w.hub.sessionsOf c.userID →
      (∀ u, u ≠ c.userID → c ∉ w.hub.sessionsOf u) →
      w.run m j acts = .done w1 → c ∈ w1.hub.clients →
      c ∈ w.hub.clients ∧ w1.stream c = w.stream c ++ sentTo j c.userID acts := by
  intro acts
  induction acts with
  | nil =>
    intro w w1 _ _ _ _ hr hstill
    simp only [World.run, Outcome.done.injEq] at hr
    subst hr
    exact ⟨hstill, by simp [sentTo]⟩
  | cons a rest ih =>
    intro w w1 hkind hnd hin hother hr hstill
    simp only [World.run] at hr
    cases hstep : w.step m j a with
    | blocks => rw [hstep] at hr; cases hr
    | panics => rw [hstep] at hr; cases hr
    | done w0 =>
      rw [hstep, Outcome.bind_done] at hr
      have hkind0 : ∀ x ∈ rest, x.isSendOrWrite = true :=
        fun x hx => hkind x (List.mem_cons_of_mem a hx)
      have huc := World.step_userClients m j w w0 a (hkind a (List.mem_cons_self a rest)) hstep
      have hsess : ∀ u, w0.hub.sessionsOf u = w.hub.sessionsOf u := by
        intro u
        unfold Hub.sessionsOf
        rw [huc]
      obtain ⟨hstill0, hrest⟩ := ih w0 w1 hkind0 (by rw [hsess]; exact hnd)
        (by rw [hsess]; exact hin) (fun u hu => by rw [hsess]; exact hother u hu) hr hstill
      obtain ⟨_, hstart, hfirst⟩ := World.step_stream_of_registered m j w w0 c a
        (hkind a (List.mem_cons_self a rest)) hnd hin hother hstep hstill0
      exact ⟨hstart, by rw [hrest, hfirst, sentTo_cons j c.userID a rest, List.append_assoc]⟩

theorem pairHub_consistent : pairHub.Consistent := by
  have hl : ∀ u l, pairHub.userClients.lookup u = some l → u = 7 ∧ l = [ann1, ann2] := by
    intro u l hl
    by_cases hu : u = 7
    · subst hu
      have h7 : pairHub.userClients.lookup 7 = some [ann1, ann2] := by decide
      rw [h7] at hl
      simp only [Option.some.injEq] at hl
      exact ⟨rfl, hl.symm⟩
    · have hnone : pairHub.userClients.lookup u = none := by
        rw [AList.lookup_eq_none]
        intro hmem
        have hk : u ∈ pairHub.userClients.keys := AList.mem_keys.mp hmem
        have hkeys : pairHub.userClients.keys = [7] := by decide
        rw [hkeys, List.mem_singleton] at hk
        exact hu hk
      rw [hnone] at hl
      cases hl
  have hcl : ∀ s, s ∈ pairHub.clients ↔ s = ann2 ∨ s = ann1 := by
    intro s
    have hkeys : pairHub.clients.keys = [ann2, ann1] := by decide
    rw [AList.mem_keys, hkeys]
    simp
  refine ⟨?_, ?_, ?_⟩
  · intro u l hul
    obtain ⟨hu, hl2⟩ := hl u l hul
    subst hu
    subst hl2
    refine ⟨by simp, by decide, ?_⟩
    intro s hs
    simp only [List.mem_cons, List.mem_singleton, List.not_mem_nil, or_false] at hs
    rcases hs with hs | hs
    · subst hs
      exact ⟨rfl, (hcl ann1).mpr (Or.inr rfl)⟩
    · subst hs
      exact ⟨rfl, (hcl ann2).mpr (Or.inl rfl)⟩
  · intro s hs
    rcases (hcl s).mp hs with hs | hs
    · subst hs; decide
    · subst hs; decide
  · intro s _
    rfl

/-! ## The unregister case -/

/-- The unregister case on a session of the global set whose mailbox is open, in
terms of what can be read from the tables afterwards. -/
theorem Hub.unregister_spec (h : Hub) (c : Client) (hreg : c ∈ h.clients)
    (hopen : (h.send c).closed = false) :
    ∃ h1, h.unregister c = .done h1 ∧ h1.clients = h.clients.erase c ∧
      h1.send = Function.update h.send c { h.send c with closed := true } ∧
      h1.userClients.lookup c.userID =
        (if (h.sessionsOf c.userID).erase c = [] then none
          else some ((h.sessionsOf c.userID).erase c)) ∧
      (∀ u, u ≠ c.userID → h1.userClients.lookup u = h.userClients.lookup u) := by
  refine ⟨_, Hub.unregister_of_mem h c hreg hopen, rfl, rfl, ?_, ?_⟩
  · by_cases hin : c ∈ h.sessionsOf c.userID
    · simp only [hin, if_true, AList.lookup_insert, Option.getD_some, List.length_eq_zero]
      by_cases he : (h.sessionsOf c.userID).erase c = []
      · simp only [he, if_true, AList.lookup_erase]
      · simp only [he, if_false, AList.lookup_insert]
    · simp only [hin, if_false, List.erase_of_not_mem hin]
      by_cases he : h.sessionsOf c.userID = []
      · have he2 : (h.userClients.lookup c.userID).getD [] = [] := he
        simp only [he, he2, List.length_nil, if_true, AList.lookup_erase]
      · have he2 : ¬ ((h.userClients.lookup c.userID).getD []).length = 0 := by
          intro hlen
          exact he (List.length_eq_zero.mp hlen)
        simp only [he2, he, if_false]
        unfold Hub.sessionsOf at he ⊢
        cases hl : h.userClients.lookup c.userID with
        | none => rw [hl] at he; exact absurd rfl he
        | some l => rfl
  · intro u hu
    by_cases hin : c ∈ h.sessionsOf c.userID
    · simp only [hin, if_true, AList.lookup_insert, Option.getD_some]
      by_cases he : ((h.sessionsOf c.userID).erase c).length = 0
      · simp only [he, if_true, AList.lookup_erase_ne hu, AList.lookup_insert_ne hu]
      · simp only [he, if_false, AList.lookup_insert_ne hu]
    · simp only [hin, if_false]
      by_cases he : ((h.userClients.lookup c.userID).getD []).length = 0
      · simp only [he, if_true, AList.lookup_erase_ne hu]
      · simp only [he, if_false]

/-- Two maps of which one has exactly the keys of the other but `k`: it has one
entry less. -/
theorem AList.length_keys_of_mem_iff {κ : Type} [DecidableEq κ] {β : κ → Type}
    (m1 m : AList β) (k : κ) (hk : k ∈ m) (hiff : ∀ u, u ∈ m1 ↔ u ≠ k ∧ u ∈ m) :
    m1.keys.length + 1 = m.keys.length := by
  have hperm : m1.keys.Perm (m.keys.erase k) := by
    rw [List.perm_ext_iff_of_nodup m1.keys_nodup (m.keys_nodup.erase k)]
    intro u
    rw [m.keys_nodup.mem_erase_iff, ← AList.mem_keys, ← AList.mem_keys]
    exact hiff u
  have hk2 : k ∈ m.keys := AList.mem_keys.mp hk
  rw [hperm.length_eq, List.length_erase_of_mem hk2]
  have : 0 < m.keys.length := List.length_pos_of_mem hk2
  omega

/-- Two maps with the same keys have the same number of entries. -/
theorem AList.length_keys_of_mem_iff_same {κ : Type} [DecidableEq κ] {β : κ → Type}
    (m1 m : AList β) (hiff : ∀ u, u ∈ m1 ↔ u ∈ m) :
    m1.keys.length = m.keys.length := by
  apply List.Perm.length_eq
  rw [List.perm_ext_iff_of_nodup m1.keys_nodup m.keys_nodup]
  intro u
  rw [← AList.mem_keys, ← AList.mem_keys]
  exact hiff u

theorem Hub.mem_userClients_of_sessionsOf_ne_nil (h : Hub) (u : UUID)
    (hne : h.sessionsOf u ≠ []) : u ∈ h.userClients := by
  rw [← AList.lookup_isSome]
  unfold Hub.sessionsOf at hne
  cases hl : h.userClients.lookup u with
  | none => rw [hl] at hne; exact absurd rfl hne
  | some l => rfl

/-- Unregistering one of the two sessions of a user in a consistent hub: the
other session is the user's list, the hub stays consistent, one connection less
and as many users. -/
theorem Hub.Consistent.unregister_of_pair {h : Hub} (hc : h.Consistent) (a b : Client)
    (u : UUID) (hab : a ≠ b) (hl : h.sessionsOf u = [a, b] ∨ h.sessionsOf u = [b, a]) :
    ∃ h1, h.unregister a = .done h1 ∧ h1.Consistent ∧ h1.sessionsOf u = [b] ∧
      (∀ x, x ≠ a → h1.send x = h.send x) ∧
      h1.GetConnectedUsers = h.GetConnectedUsers ∧
      h1.GetTotalConnections + 1 = h.GetTotalConnections := by
  have hain : a ∈ h.sessionsOf u := by
    rcases hl with hl | hl <;> simp [hl]
  obtain ⟨hau, hareg⟩ := hc.mem_sessionsOf hain
  subst hau
  obtain ⟨h1, hrun, hcl, hsend, hlook, hothers⟩ :=
    Hub.unregister_spec h a hareg (hc.2.2 a hareg)
  obtain ⟨h1', hrun', hcons1, _, _⟩ := hc.unregister a
  rw [hrun] at hrun'
  simp only [Outcome.done.injEq] at hrun'
  subst hrun'
  have herase : (h.sessionsOf a.userID).erase a = [b] := by
    rcases hl with hl | hl
    · rw [hl]
      simp
    · rw [hl]
      have hba : b ≠ a := fun hba => hab hba.symm
      simp [List.erase_cons, hba]
  rw [herase] at hlook
  simp only [List.cons_ne_self, if_false] at hlook
  refine ⟨h1, hrun, hcons1, ?_, ?_, ?_, ?_⟩
  · unfold Hub.sessionsOf
    rw [hlook]
    rfl
  · intro x hx
    rw [hsend]
    simp [Function.update_noteq hx]
  · rw [Hub.GetConnectedUsers_eq_keys, Hub.GetConnectedUsers_eq_keys]
    apply AList.length_keys_of_mem_iff_same
    intro x
    rw [← AList.lookup_isSome, ← AList.lookup_isSome]
    by_cases hx : x = a.userID
    · subst hx
      rw [hlook]
      have hmem : a.userID ∈ h.userClients :=
        Hub.mem_userClients_of_sessionsOf_ne_nil h a.userID (List.ne_nil_of_mem hain)
      rw [← AList.lookup_isSome] at hmem
      simp [hmem]
    · rw [hothers x hx]
  · rw [Hub.GetTotalConnections_eq_keys, Hub.GetTotalConnections_eq_keys, hcl]
    exact AList.length_keys_erase_of_mem h.clients a hareg

/-- Unregistering the only session of a user in a consistent hub: the entry of
the user is deleted, one connection less and one user less. -/
theorem Hub.Consistent.unregister_of_single {h : Hub} (hc : h.Consistent) (b : Client)
    (u : UUID) (hl : h.sessionsOf u = [b]) :
    ∃ h2, h.unregister b = .done h2 ∧ u ∉ h2.userClients ∧ h2.sessionsOf u = [] ∧
      h2.GetConnectedUsers + 1 = h.GetConnectedUsers ∧
      h2.GetTotalConnections + 1 = h.GetTotalConnections := by
  have hbin : b ∈ h.sessionsOf u := by simp [hl]
  obtain ⟨hbu, hbreg⟩ := hc.mem_sessionsOf hbin
  subst hbu
  obtain ⟨h2, hrun, hcl, _, hlook, hothers⟩ :=
    Hub.unregister_spec h b hbreg (hc.2.2 b hbreg)
  rw [hl] at hlook
  simp only [List.erase_cons_head, if_true] at hlook
  refine ⟨h2, hrun, ?_, ?_, ?_, ?_⟩
  · rw [← AList.lookup_eq_none]
    exact hlook
  · unfold Hub.sessionsOf
    rw [hlook]
    rfl
  · rw [Hub.GetConnectedUsers_eq_keys, Hub.GetConnectedUsers_eq_keys]
    apply AList.length_keys_of_mem_iff h2.userClients h.userClients b.userID
      (Hub.mem_userClients_of_sessionsOf_ne_nil h b.userID (List.ne_nil_of_mem hbin))
    intro x
    rw [← AList.lookup_isSome, ← AList.lookup_isSome]
    by_cases hx : x = b.userID
    · subst hx
      rw [hlook]
      simp
    · rw [hothers x hx]
      simp [hx]
  · rw [Hub.GetTotalConnections_eq_keys, Hub.GetTotalConnections_eq_keys, hcl]
    exact AList.length_keys_erase_of_mem h.clients b hbreg

/-! ## Package utils -/

theorem containsFrom_eq_true_iff (s substr : GoString) :
    ∀ (n i : Nat), containsFrom s substr i n = true ↔
      ∃ k, k < n ∧ (s.drop (i + k)).take substr.length = substr := by
  intro n
  induction n with
  | zero =>
    intro i
    simp [containsFrom]
  | succ n ih =>
    intro i
    unfold containsFrom
    by_cases h0 : (s.drop i).take substr.length = substr
    · simp only [h0, if_true, true_iff]
      exact ⟨0, Nat.succ_pos n, by simpa using h0⟩
    · simp only [h0, if_false, ih (i + 1)]
      constructor
      · rintro ⟨k, hk, hk2⟩
        exact ⟨k + 1, Nat.succ_lt_succ hk, by rw [← hk2]; congr 2; omega⟩
      · rintro ⟨k, hk, hk2⟩
        cases k with
        | zero => exact absurd (by simpa using hk2) h0
        | succ k => exact ⟨k, Nat.lt_of_succ_lt_succ hk, by rw [← hk2]; congr 2; omega⟩

/-- The loop of `contains` finds exactly the substrings: `contains s substr`
holds when `substr` occurs in `s` as a block of consecutive bytes. -/
theorem contains_eq_true_iff (s substr : GoString) :
    contains s substr = true ↔ substr <:+: s := by
  unfold contains
  rw [containsFrom_eq_true_iff]
  constructor
  · rintro ⟨k, _, hk2⟩
    refine ⟨s.take k, (s.drop k).drop substr.length, ?_⟩
    rw [Nat.zero_add] at hk2
    have h1 : s.take k ++ s.drop k = s := List.take_append_drop k s
    have h2 : (s.drop k).take substr.length ++ (s.drop k).drop substr.length = s.drop k :=
      List.take_append_drop _ _
    rw [hk2] at h2
    rw [List.append_assoc, h2, h1]
  · rintro ⟨a, b, hab⟩
    refine ⟨a.length, ?_, ?_⟩
    · have hlen : s.length = a.length + substr.length + b.length := by
        rw [← hab, List.length_append, List.length_append]
      omega
    · rw [Nat.zero_add, ← hab, List.append_assoc, List.drop_left, List.take_left]

theorem contains_byte_iff (s : GoString) (b : Nat) : contains s [b] = true ↔ b ∈ s := by
  rw [contains_eq_true_iff]
  constructor
  · rintro ⟨a, c, hac⟩
    rw [← hac]
    simp
  · intro hb
    obtain ⟨a, c, hac⟩ := List.append_of_mem hb
    exact ⟨a, c, by rw [hac]; simp⟩

theorem SanitizeString_cons (b : Nat) (rest : GoString) :
    SanitizeString (b :: rest) = escapeByte b ++ SanitizeString rest := by
  unfold SanitizeString
  rw [byteStringReplace]
  congr 1
  have h1 : ascii "<" = [60] := by decide
  have h2 : ascii ">" = [62] := by decide
  have h3 : ascii "&" = [38] := by decide
  have h4 : ascii "\"" = [34] := by decide
  have h5 : ascii "'" = [39] := by decide
  rw [h1, h2, h3, h4, h5]
  unfold escapeByte
  by_cases c1 : b = 60
  · subst c1; rfl
  · by_cases c2 : b = 62
    · subst c2; rfl
    · by_cases c3 : b = 38
      · subst c3; rfl
      · by_cases c4 : b = 34
        · subst c4; rfl
        · by_cases c5 : b = 39
          · subst c5; rfl
          · have e1 : (b == 60) = false := by simpa using c1
            have e2 : (b == 62) = false := by simpa using c2
            have e3 : (b == 38) = false := by simpa using c3
            have e4 : (b == 34) = false := by simpa using c4
            have e5 : (b == 39) = false := by simpa using c5
            simp [List.lookup, e1, e2, e3, e4, e5, c1, c2, c3, c4, c5]

theorem escapeByte_free (b x : Nat) (hx : x = 60 ∨ x = 62 ∨ x = 34 ∨ x = 39) :
    x ∉ escapeByte b := by
  unfold escapeByte
  by_cases c1 : b = 60
  · rw [if_pos c1]; rcases hx with h | h | h | h <;> subst h <;> decide
  · rw [if_neg c1]
    by_cases c2 : b = 62
    · rw [if_pos c2]; rcases hx with h | h | h | h <;> subst h <;> decide
    · rw [if_neg c2]
      by_cases c3 : b = 38
      · rw [if_pos c3]; rcases hx with h | h | h | h <;> subst h <;> decide
      · rw [if_neg c3]
        by_cases c4 : b = 34
        · rw [if_pos c4]; rcases hx with h | h | h | h <;> subst h <;> decide
        · rw [if_neg c4]
          by_cases c5 : b = 39
          · rw [if_pos c5]; rcases hx with h | h | h | h <;> subst h <;> decide
          · rw [if_neg c5, List.mem_singleton]
            rcases hx with h | h | h | h <;> subst h <;> intro hb
            · exact c1 hb.symm
            · exact c2 hb.symm
            · exact c4 hb.symm
            · exact c5 hb.symm

theorem escapeByte_of_plain (b : Nat)
    (hb : b ≠ 60 ∧ b ≠ 62 ∧ b ≠ 38 ∧ b ≠ 34 ∧ b ≠ 39) : escapeByte b = [b] := by
  unfold escapeByte
  simp [hb.1, hb.2.1, hb.2.2.1, hb.2.2.2.1, hb.2.2.2.2]

/-! ## The reader loop and the racing call -/

/-- With no event of the control loop in between, the racing call is the call. -/
theorem Hub.SendToUserRacing_nil {α : Type}
    (j : α → Except GoError Bytes) (h : Hub) (userID : UUID) (message : α) :
    h.SendToUserRacing j userID message [] = h.SendToUser j userID message := by
  unfold Hub.SendToUserRacing Hub.SendToUser
  cases j message with
  | error err => rfl
  | ok data =>
    cases h.userClients.lookup userID with
    | none => rfl
    | some l => rfl

/-- The register case is its two table writes followed by the welcome send. -/
theorem Hub.register_eq_tables_then_welcome (m : Message → Except GoError Bytes)
    (h : Hub) (client : Client) (now : Time) :
    h.register m client now = (h.registerTables client).registerWelcome m client now := by
  unfold Hub.register Hub.registerWelcome Hub.registerTables
  cases m (welcomeMsg now) with
  | error err => rfl
  | ok data => rfl

/-- A round of the reader loop never touches the read deadline. -/
theorem Hub.readPumpRound_deadline (m : Message → Except GoError Bytes) (h h1 : Hub)
    (r r1 : Reader) (c : Client) (res : ReadResult) (now : Time)
    (hr : h.readPumpRound m r c res now = .done (h1, r1)) :
    r1.readDeadline = r.readDeadline := by
  unfold Hub.readPumpRound at hr
  cases res with
  | failed =>
    cases hu : h.unregister c with
    | blocks => rw [hu] at hr; cases hr
    | panics => rw [hu] at hr; cases hr
    | done h2 =>
      rw [hu] at hr
      simp only [Outcome.map_done, Outcome.done.injEq, Prod.mk.injEq] at hr
      rw [← hr.2]
  | decoded msg =>
    simp only at hr
    by_cases hp : msg.Type' = "ping"
    · simp only [hp, if_true] at hr
      cases hm : m (pongMsg now) with
      | error err =>
        simp only [hm, Outcome.done.injEq, Prod.mk.injEq] at hr
        rw [← hr.2]
      | ok data =>
        simp only [hm] at hr
        cases hs : (h.send c).send data with
        | blocks => rw [hs] at hr; cases hr
        | panics => rw [hs] at hr; cases hr
        | done ch =>
          rw [hs] at hr
          simp only [Outcome.map_done, Outcome.done.injEq, Prod.mk.injEq] at hr
          rw [← hr.2]
    · simp only [hp, if_false, ite_self, Outcome.done.injEq, Prod.mk.injEq] at hr
      rw [← hr.2]

/-! ## The serialized case without evicted sessions

What the dispatch calls, the register case and the loops of a client do when no
list of `userClients` holds a session with a closed mailbox and every call of
`SendToUser` runs before or after a case of the control loop, not inside it. -/

/-- The fan-out of `SendToUser` over open mailboxes: when every session of the
user has an open mailbox, full or with room,
`SendToUser` ends normally (it neither parks nor panics), returns `nil`, and
every session whose mailbox had room has the serialized envelope appended to its
mailbox, keeps its mailbox open and keeps its place in the global set, however
many of the other sessions were stalled. -/
theorem sendToUser_not_stalled_by_full_session {α : Type}
    (jsonMarshal : α → Except GoError Bytes)
    (h : Hub) (userID : UUID) (message : α) (data : Bytes)
    (hser : jsonMarshal message = .ok data)
    (hnd : (h.sessionsOf userID).Nodup)
    (hopen : ∀ c ∈ h.sessionsOf userID, (h.send c).full ∨ (h.send c).hasRoom) :
    ∃ h1, h.SendToUser jsonMarshal userID message = .done (h1, none) ∧
      ∀ c ∈ h.sessionsOf userID, (h.send c).hasRoom →
        h1.send c = { h.send c with buf := (h.send c).buf ++ [data] } ∧
        (h1.send c).closed = false ∧ (c ∈ h1.clients ↔ c ∈ h.clients) := by
  have hop : ∀ c ∈ h.sessionsOf userID, (h.send c).closed = false := by
    intro c hc
    rcases hopen c hc with hf | hr
    · exact hf.1
    · exact hr.1
  obtain ⟨h1, hrun, _, hsend, hmem, _⟩ :=
    Hub.pushAll_spec data (h.sessionsOf userID) h hnd hop
  refine ⟨h1, ?_, ?_⟩
  · rw [Hub.SendToUser_of_ok jsonMarshal h userID message data hser, hrun]
    rfl
  · intro c hc hr
    have hs : h1.send c = { h.send c with buf := (h.send c).buf ++ [data] } := by
      rw [hsend c, if_pos hc, Chan.afterPush_of_hasRoom data hr]
    refine ⟨hs, ?_, ?_⟩
    · rw [hs]
      exact hr.1
    · rw [hmem c]
      constructor
      · exact fun hx => hx.1
      · exact fun hx => ⟨hx, fun hcf => Chan.not_full_of_hasRoom hr hcf.2⟩

theorem sendToUser_not_stalled_by_full_session_witness :
    ∃ h1, mixedHub.SendToUser sampleMarshal 7 5 = .done (h1, none) ∧
      ∀ c ∈ mixedHub.sessionsOf 7, (mixedHub.send c).hasRoom →
        h1.send c = { mixedHub.send c with buf := (mixedHub.send c).buf ++ [[5]] } ∧
        (h1.send c).closed = false ∧ (c ∈ h1.clients ↔ c ∈ mixedHub.clients) :=
  sendToUser_not_stalled_by_full_session sampleMarshal mixedHub 7 5 [5] rfl
    (by decide) (by decide)

/-- The register case as one step of the control loop, with every call of
`SendToUser` before or after it: registering a session whose mailbox is new
(open, empty, with room),
the welcome message being serialized to `data`: the message has type "system",
the mailbox of the session holds exactly the one frame `data`, no other mailbox
changes, and whatever the hub and the writer loops do afterwards, `data` is the
first of the frames written to the connection of the session or still queued for
it, ahead of everything `SendToUser` or a broadcast pushed later. -/
theorem welcome_frame_comes_first {α : Type} (m : Message → Except GoError Bytes)
    (j : α → Except GoError Bytes) (h : Hub) (c : Client) (now : Time) (data : Bytes)
    (hm : m (welcomeMsg now) = .ok data) (hroom : (h.send c).hasRoom)
    (hempty : (h.send c).buf = []) :
    (welcomeMsg now).Type' = "system" ∧
      ∃ h1, h.register m c now = .done h1 ∧ (h1.send c).buf = [data] ∧
        (∀ x, x ≠ c → h1.send x = h.send x) ∧
        ∀ (writer : Client → Writer) (acts : List (Action α)) (w : World),
          (writer c).wire = [] →
          World.run m j { hub := h1, writer := writer } acts = .done w →
          ∃ rest, w.stream c = data :: rest := by
  refine ⟨rfl, _, Hub.register_of_ok_hasRoom m h c now data hm hroom, ?_, ?_, ?_⟩
  · simp [hempty]
  · intro x hx
    simp [Function.update_noteq hx]
  · intro writer acts w hw hrun
    obtain ⟨t, ht⟩ := World.run_stream m j c acts _ w hrun
    refine ⟨t, ?_⟩
    rw [ht]
    simp [World.stream, hw, textFrames, hempty]

theorem welcome_frame_comes_first_witness :
    (welcomeMsg 0).Type' = "system" ∧
      ∃ h1, NewHub.register sampleMarshalMessage ann1 0 = .done h1 ∧
        (h1.send ann1).buf = [[6, 0]] ∧
        (∀ x, x ≠ ann1 → h1.send x = NewHub.send x) ∧
        ∀ (writer : Client → Writer) (acts : List (Action Nat)) (w : World),
          (writer ann1).wire = [] →
          World.run sampleMarshalMessage sampleMarshal { hub := h1, writer := writer }
            acts = .done w →
          ∃ rest, w.stream ann1 = [6, 0] :: rest :=
  welcome_frame_comes_first sampleMarshalMessage sampleMarshal NewHub ann1 0 [6, 0] rfl
    (by decide) rfl

/-- The writer loop in a run that ends normally: take a session that is
registered, listed once and under its own user
only (as in every consistent hub), and any run of `SendToUser` calls and writer
iterations after which the session is still in the global set, that is, no push
found its mailbox full. Then the text frames its writer loop has passed to the
connection, followed by the frames still queued, are what was written or queued
before the run followed by the serializations of the envelopes sent to its user,
in the order of the calls: the writer passes them on in that order, none twice,
none skipped. -/
theorem writer_delivers_in_send_order {α : Type} (m : Message → Except GoError Bytes)
    (j : α → Except GoError Bytes) (w0 w : World) (c : Client) (acts : List (Action α))
    (hcons : w0.hub.Consistent) (hreg : c ∈ w0.hub.clients)
    (hkind : ∀ a ∈ acts, a.isSendOrWrite = true)
    (hrun : w0.run m j acts = .done w) (hstill : c ∈ w.hub.clients) :
    textFrames (w.writer c).wire ++ (w.hub.send c).buf =
      textFrames (w0.writer c).wire ++ (w0.hub.send c).buf ++ sentTo j c.userID acts := by
  have hin : c ∈ w0.hub.sessionsOf c.userID := hcons.2.1 c hreg
  have hother : ∀ u, u ≠ c.userID → c ∉ w0.hub.sessionsOf u := by
    intro u hu hmem
    exact hu (hcons.mem_sessionsOf hmem).1.symm
  exact (World.run_stream_of_registered m j c acts w0 w hkind
    (hcons.nodup_sessionsOf c.userID) hin hother hrun hstill).2

theorem writer_delivers_in_send_order_witness :
    ∃ w, (World.ofHub pairHub).run sampleMarshalMessage sampleMarshal chatActions =
        .done w ∧ ann1 ∈ w.hub.clients ∧
      textFrames (w.writer ann1).wire ++ (w.hub.send ann1).buf =
        textFrames ((World.ofHub pairHub).writer ann1).wire ++
          ((World.ofHub pairHub).hub.send ann1).buf ++ [[11], [12], [13]] := by
  have hk : ((World.ofHub pairHub).run sampleMarshalMessage sampleMarshal chatActions).map
      (fun w => decide (ann1 ∈ w.hub.clients)) = .done true := by decide
  cases hrun : (World.ofHub pairHub).run sampleMarshalMessage sampleMarshal chatActions with
  | blocks => rw [hrun] at hk; cases hk
  | panics => rw [hrun] at hk; cases hk
  | done w =>
    rw [hrun] at hk
    simp only [Outcome.map_done, Outcome.done.injEq, decide_eq_true_eq] at hk
    exact ⟨w, rfl, hk,
      writer_delivers_in_send_order sampleMarshalMessage sampleMarshal (World.ofHub pairHub)
        w ann1 chatActions pairHub_consistent (by decide) (by decide) hrun hk⟩

/-- Two sessions of one user without an evicted third: in a consistent hub in
which the sessions of user `u` are the two
distinct sessions `s1` and `s2` (registered in either order): after `s1` is
unregistered, `SendToUser(u, e)` returns `nil` and appends the serialized `e` to
the mailbox of `s2` when it has room, and likewise with the two sessions
exchanged; after both are unregistered, in either order, `u` has no entry in
`userClients` and `GetConnectedUsers` is one less than at the start. -/
theorem two_sessions_of_one_user {α : Type} (j : α → Except GoError Bytes) (h : Hub)
    (s1 s2 : Client) (u : UUID) (hc : h.Consistent) (hne : s1 ≠ s2)
    (hl : h.sessionsOf u = [s1, s2] ∨ h.sessionsOf u = [s2, s1]) :
    (∀ (e : α) (data : Bytes), j e = .ok data → (h.send s2).hasRoom →
      ∃ h1 h2, h.unregister s1 = .done h1 ∧ h1.SendToUser j u e = .done (h2, none) ∧
        (h2.send s2).buf = (h.send s2).buf ++ [data]) ∧
    (∀ (e : α) (data : Bytes), j e = .ok data → (h.send s1).hasRoom →
      ∃ h1 h2, h.unregister s2 = .done h1 ∧ h1.SendToUser j u e = .done (h2, none) ∧
        (h2.send s1).buf = (h.send s1).buf ++ [data]) ∧
    (∃ h1 h2, h.unregister s1 = .done h1 ∧ h1.unregister s2 = .done h2 ∧
      u ∉ h2.userClients ∧ h2.GetConnectedUsers + 1 = h.GetConnectedUsers) ∧
    (∃ h1 h2, h.unregister s2 = .done h1 ∧ h1.unregister s1 = .done h2 ∧
      u ∉ h2.userClients ∧ h2.GetConnectedUsers + 1 = h.GetConnectedUsers) := by
  have send_other : ∀ a b : Client, a ≠ b →
      (h.sessionsOf u = [a, b] ∨ h.sessionsOf u = [b, a]) →
      ∀ (e : α) (data : Bytes), j e = .ok data → (h.send b).hasRoom →
      ∃ h1 h2, h.unregister a = .done h1 ∧ h1.SendToUser j u e = .done (h2, none) ∧
        (h2.send b).buf = (h.send b).buf ++ [data] := by
    intro a b hab hlab e data hj hroom
    obtain ⟨h1, hrun, _, hsess, hsend, _, _⟩ := hc.unregister_of_pair a b u hab hlab
    have hb : h1.send b = h.send b := hsend b (fun hba => hab hba.symm)
    obtain ⟨h2, hpush, _, _, hres⟩ := Hub.pushAll_of_hasRoom data [b] h1 (by simp)
      (by
        intro x hx
        rw [List.mem_singleton] at hx
        subst hx
        rw [hb]
        exact hroom)
    refine ⟨h1, h2, hrun, ?_, ?_⟩
    · rw [Hub.SendToUser_of_ok j h1 u e data hj, hsess, hpush]
      rfl
    · rw [hres b, if_pos (List.mem_singleton.mpr rfl), hb,
        Chan.afterPush_of_hasRoom data hroom]
  have both : ∀ a b : Client, a ≠ b →
      (h.sessionsOf u = [a, b] ∨ h.sessionsOf u = [b, a]) →
      ∃ h1 h2, h.unregister a = .done h1 ∧ h1.unregister b = .done h2 ∧
        u ∉ h2.userClients ∧ h2.GetConnectedUsers + 1 = h.GetConnectedUsers := by
    intro a b hab hlab
    obtain ⟨h1, hrun, hcons1, hsess, _, husers, _⟩ := hc.unregister_of_pair a b u hab hlab
    obtain ⟨h2, hrun2, hgone, _, hcount, _⟩ := hcons1.unregister_of_single b u hsess
    exact ⟨h1, h2, hrun, hrun2, hgone, by rw [hcount, husers]⟩
  exact ⟨send_other s1 s2 hne hl, send_other s2 s1 (fun hh => hne hh.symm) hl.symm,
    both s1 s2 hne hl, both s2 s1 (fun hh => hne hh.symm) hl.symm⟩

theorem two_sessions_of_one_user_witness :
    (∀ (e : Nat) (data : Bytes), sampleMarshal e = .ok data → (pairHub.send ann2).hasRoom →
      ∃ h1 h2, pairHub.unregister ann1 = .done h1 ∧
        h1.SendToUser sampleMarshal 7 e = .done (h2, none) ∧
        (h2.send ann2).buf = (pairHub.send ann2).buf ++ [data]) ∧
    (∀ (e : Nat) (data : Bytes), sampleMarshal e = .ok data → (pairHub.send ann1).hasRoom →
      ∃ h1 h2, pairHub.unregister ann2 = .done h1 ∧
        h1.SendToUser sampleMarshal 7 e = .done (h2, none) ∧
        (h2.send ann1).buf = (pairHub.send ann1).buf ++ [data]) ∧
    (∃ h1 h2, pairHub.unregister ann1 = .done h1 ∧ h1.unregister ann2 = .done h2 ∧
      7 ∉ h2.userClients ∧ h2.GetConnectedUsers + 1 = pairHub.GetConnectedUsers) ∧
    (∃ h1 h2, pairHub.unregister ann2 = .done h1 ∧ h1.unregister ann1 = .done h2 ∧
      7 ∉ h2.userClients ∧ h2.GetConnectedUsers + 1 = pairHub.GetConnectedUsers) :=
  two_sessions_of_one_user sampleMarshal pairHub ann1 ann2 7 pairHub_consistent
    (by decide) (Or.inl (by decide))

/-- The ping round on an open mailbox with room: for a decoded envelope of type
"ping", the pong message being
serialized to `data` and the mailbox of the session having room, the round of
the reader loop ends normally, appends the one frame `data`, whose message has
the type "pong", to the mailbox of the session, leaves every other mailbox and
both tables as they were, and the loop is not left. -/
theorem ping_pushes_one_pong (m : Message → Except GoError Bytes) (h : Hub)
    (r : Reader) (c : Client) (msg : Message) (now : Time) (data : Bytes)
    (hping : msg.Type' = "ping") (hm : m (pongMsg now) = .ok data)
    (hroom : (h.send c).hasRoom) :
    (pongMsg now).Type' = "pong" ∧
      ∃ h1, h.readPumpRound m r c (ReadResult.decoded msg) now = .done (h1, r) ∧
        h1.send c = { h.send c with buf := (h.send c).buf ++ [data] } ∧
        (∀ x, x ≠ c → h1.send x = h.send x) ∧
        h1.clients = h.clients ∧ h1.userClients = h.userClients := by
  obtain ⟨hc, hl⟩ := hroom
  have key : h.readPumpRound m r c (ReadResult.decoded msg) now =
      .done ({ h with send := Function.update h.send c (Chan.afterPush (h.send c) data) },
        r) := by
    simp [Hub.readPumpRound, hping, hm, Chan.send, Chan.afterPush, hc, hl]
  refine ⟨rfl, _, key, ?_, ?_, rfl, rfl⟩
  · simp [Chan.afterPush, hl]
  · intro x hx
    simp [Function.update_noteq hx]

theorem ping_pushes_one_pong_witness :
    (pongMsg 30).Type' = "pong" ∧
      ∃ h1, pairHub.readPumpRound sampleMarshalMessage (readPumpSetup 0) ann1
          (ReadResult.decoded pingFrame) 30 = .done (h1, readPumpSetup 0) ∧
        h1.send ann1 = { pairHub.send ann1 with buf := (pairHub.send ann1).buf ++ [[4, 30]] } ∧
        (∀ x, x ≠ ann1 → h1.send x = pairHub.send x) ∧
        h1.clients = pairHub.clients ∧ h1.userClients = pairHub.userClients :=
  ping_pushes_one_pong sampleMarshalMessage pairHub (readPumpSetup 0) ann1 pingFrame 30
    [4, 30] rfl rfl (by decide)

/-! ## The request contents, case by case -/

/-- The contents built by `geminiContents`, by the role of the first message: for
every non-empty list of context messages the contents hold
one entry per message, in the same order and with the same roles; when the first
message has the role "user", the text of the first entry is the system prompt
(the prompt of the user if set, else the built-in one), a blank line and the
content of that message, and the other entries carry the contents of their
messages; when the first message has another role, every entry carries just the
content of its message and the system prompt is not part of the request. -/
theorem geminiContents_one_entry_per_message (first : ChatMessage)
    (rest : List ChatMessage) (userPreference : UserPreference) :
    (geminiContents (first :: rest) userPreference).length = (first :: rest).length ∧
      (geminiContents (first :: rest) userPreference).map GeminiContent.Role =
        (first :: rest).map ChatMessage.Role ∧
      (first.Role = "user" →
        textsOf (geminiContents (first :: rest) userPreference) =
          (systemPromptOf userPreference ++ "\n\n" ++ first.Content) ::
            rest.map ChatMessage.Content) ∧
      (first.Role ≠ "user" →
        textsOf (geminiContents (first :: rest) userPreference) =
          (first :: rest).map ChatMessage.Content) ∧
      (userPreference.SystemPrompt ≠ "" →
        systemPromptOf userPreference = userPreference.SystemPrompt) := by
  have htexts : ∀ l : List ChatMessage,
      textsOf (l.map contentOfMessage) = l.map ChatMessage.Content := by
    intro l
    induction l with
    | nil => rfl
    | cons m ms ih =>
      simp only [textsOf, List.map_cons, List.flatten_cons, contentOfMessage] at ih ⊢
      rw [ih]
      rfl
  have hroles : ∀ l : List ChatMessage,
      (l.map contentOfMessage).map GeminiContent.Role = l.map ChatMessage.Role := by
    intro l
    induction l with
    | nil => rfl
    | cons m ms ih => simp [contentOfMessage]
  by_cases hu : first.Role = "user"
  · refine ⟨?_, ?_, ?_, fun hn => absurd hu hn, ?_⟩
    · simp [geminiContents, hu]
    · simp only [geminiContents, hu, if_true, List.map_cons, hroles]
    · intro _
      simp only [geminiContents, hu, if_true, textsOf, List.map_cons, List.flatten_cons]
      have := htexts rest
      simp only [textsOf] at this
      rw [this]
      rfl
    · intro hp
      simp [systemPromptOf, hp]
  · refine ⟨?_, ?_, fun hy => absurd hy hu, ?_, ?_⟩
    · simp [geminiContents, hu]
    · simp only [geminiContents, hu, if_false, hroles]
    · intro _
      simp only [geminiContents, hu, if_false]
      exact htexts (first :: rest)
    · intro hp
      simp [systemPromptOf, hp]

theorem geminiContents_one_entry_per_message_witness :
    textsOf (geminiContents windowFromUser { SystemPrompt := "Answer briefly." }) =
      ["Answer briefly.\n\nTell me a joke", "Why did the gopher cross the road?", "Why?"] :=
  (geminiContents_one_entry_per_message { Content := "Tell me a joke", Role := "user" }
    [{ Content := "Why did the gopher cross the road?", Role := "assistant" },
      { Content := "Why?", Role := "user" }] { SystemPrompt := "Answer briefly." }).2.2.1 rfl

/-! ## The claims -/

/-- C2, evaluated: after `filledTrace` the only session `ann1` is registered
with a full mailbox. `SendToUser` to its user then deletes `ann1` from `clients`
and closes its mailbox but leaves it in the list of user 7, whereas `unregister`
on the same state empties both tables. -/
theorem sendToUser_eviction_keeps_user_entry :
    ((NewHub.run sampleMarshalMessage sampleMarshal filledTrace).map fun h =>
        (h.tables, (h.send ann1).closed, (h.send ann1).buf.length)) =
      .done (([ann1], [(7, [ann1])]), false, 256) ∧
    ((NewHub.run sampleMarshalMessage sampleMarshal filledTrace).bind fun h =>
        (h.SendToUser sampleMarshal 7 5).map fun r =>
          (r.1.tables, (r.1.send ann1).closed, r.2)) =
      .done (([], [(7, [ann1])]), true, none) ∧
    ((NewHub.run sampleMarshalMessage sampleMarshal filledTrace).bind fun h =>
        (h.unregister ann1).map Hub.tables) = .done ([], []) := by
  refine ⟨?_, ?_, ?_⟩ <;> decide

/-- C1, evaluated: after `stalledTrace` (one session registers, 256 envelopes go
to its user and nothing is drained) the session `ann1` is no longer in `clients`
and its mailbox is closed, yet it is still listed under user 7 in `userClients`;
the unregister event its reader loop sends later changes neither table, and one
more `SendToUser` to user 7 panics on the closed mailbox. -/
theorem stalledTrace_leaves_stale_session :
    ((NewHub.run sampleMarshalMessage sampleMarshal stalledTrace).map fun h =>
        (h.tables, (h.send ann1).closed, h.GetTotalConnections, h.GetConnectedUsers)) =
      .done (([], [(7, [ann1])]), true, 0, 1) ∧
    ((NewHub.run sampleMarshalMessage sampleMarshal
        (stalledTrace ++ [Event.unregister ann1])).map Hub.tables) =
      .done ([], [(7, [ann1])]) ∧
    ((NewHub.run sampleMarshalMessage sampleMarshal
        (stalledTrace ++ [Event.sendToUser 7 5])).map fun _ => ()) = .panics := by
  refine ⟨?_, ?_, ?_⟩ <;> decide

/-- C7: for a user without sessions (no entry, or an empty list) `SendToUser` of
a serializable envelope returns `nil` and the hub state (both tables and every
mailbox) is the one before the call. -/
theorem sendToUser_offline_is_noop {α : Type} (jsonMarshal : α → Except GoError Bytes)
    (h : Hub) (userID : UUID) (message : α) (data : Bytes)
    (hser : jsonMarshal message = .ok data) (hoff : h.sessionsOf userID = []) :
    h.SendToUser jsonMarshal userID message = .done (h, none) := by
  rw [Hub.SendToUser_of_ok jsonMarshal h userID message data hser, hoff]
  rfl

theorem sendToUser_offline_is_noop_witness :
    mixedHub.SendToUser sampleMarshal 9 5 = .done (mixedHub, none) :=
  sendToUser_offline_is_noop sampleMarshal mixedHub 9 5 [5] rfl rfl

/-- C8: when every session of the user has room in its mailbox, `SendToUser`
returns `nil`, appends the serialized bytes once at the tail of the mailbox of
each of the user's sessions, and changes nothing else. -/
theorem sendToUser_delivers_to_every_session {α : Type}
    (jsonMarshal : α → Except GoError Bytes)
    (h : Hub) (userID : UUID) (message : α) (data : Bytes)
    (hser : jsonMarshal message = .ok data)
    (hnd : (h.sessionsOf userID).Nodup)
    (hroom : ∀ c ∈ h.sessionsOf userID, (h.send c).hasRoom) :
    ∃ h1, h.SendToUser jsonMarshal userID message = .done (h1, none) ∧
      h1.clients = h.clients ∧ h1.userClients = h.userClients ∧
      (∀ c ∈ h.sessionsOf userID,
        h1.send c = { h.send c with buf := (h.send c).buf ++ [data] }) ∧
      (∀ c, c ∉ h.sessionsOf userID → h1.send c = h.send c) := by
  obtain ⟨h1, hrun, hcl, huc, hsend⟩ :=
    Hub.pushAll_of_hasRoom data (h.sessionsOf userID) h hnd hroom
  refine ⟨h1, ?_, hcl, huc, ?_, ?_⟩
  · rw [Hub.SendToUser_of_ok jsonMarshal h userID message data hser, hrun]
    rfl
  · intro c hc
    rw [hsend c, if_pos hc, Chan.afterPush_of_hasRoom data (hroom c hc)]
  · intro c hc
    rw [hsend c, if_neg hc]

theorem sendToUser_delivers_to_every_session_witness :
    ∃ h1, pairHub.SendToUser sampleMarshal 7 5 = .done (h1, none) ∧
      h1.clients = pairHub.clients ∧ h1.userClients = pairHub.userClients ∧
      (∀ c ∈ pairHub.sessionsOf 7,
        h1.send c = { pairHub.send c with buf := (pairHub.send c).buf ++ [[5]] }) ∧
      (∀ c, c ∉ pairHub.sessionsOf 7 → h1.send c = pairHub.send c) :=
  sendToUser_delivers_to_every_session sampleMarshal pairHub 7 5 [5] rfl
    (by decide) (by decide)

/-- C3: after the control loop has processed a sequence of register and
unregister events from the empty hub, `GetTotalConnections` is the number of
sessions registered and not yet unregistered; and the loop does process the
whole sequence when no session is registered twice. -/
theorem getTotalConnections_eq_live_sessions {α : Type}
    (m : Message → Except GoError Bytes) (j : α → Except GoError Bytes)
    (evs : List (Event α)) (hmem : ∀ e ∈ evs, e.isMembership = true) :
    (∀ h, NewHub.run m j evs = .done h →
      h.GetTotalConnections = (liveSessions evs).length) ∧
    (RegisteredOnce evs → ∃ h, NewHub.run m j evs = .done h) := by
  constructor
  · intro h hrun
    rw [Hub.GetTotalConnections_eq_keys]
    apply List.Perm.length_eq
    rw [List.perm_ext_iff_of_nodup h.clients.keys_nodup (nodup_liveSessions evs)]
    intro s
    rw [← AList.mem_keys, Hub.mem_clients_iff_stillRegistered m j evs h hmem hrun s,
      mem_liveSessions]
  · intro honce
    obtain ⟨h, hrun, _⟩ := Hub.run_registeredOnce m j evs hmem honce
    exact ⟨h, hrun⟩

theorem getTotalConnections_eq_live_sessions_witness :
    (∀ h, NewHub.run sampleMarshalMessage sampleMarshal sampleHistory = .done h →
      h.GetTotalConnections = (liveSessions sampleHistory).length) ∧
    (RegisteredOnce sampleHistory →
      ∃ h, NewHub.run sampleMarshalMessage sampleMarshal sampleHistory = .done h) :=
  getTotalConnections_eq_live_sessions sampleMarshalMessage sampleMarshal sampleHistory
    (by decide)

/-- C4: the control loop processes every sequence of register and unregister
events that hands each session to `h.register` once (the only sender,
`HandleWebSocket`, allocates the client and registers it a single time), and
afterwards `GetConnectedUsers` is the number of distinct user identities with at
least one session registered and not yet unregistered. -/
theorem getConnectedUsers_eq_live_users {α : Type}
    (m : Message → Except GoError Bytes) (j : α → Except GoError Bytes)
    (evs : List (Event α)) (hmem : ∀ e ∈ evs, e.isMembership = true)
    (honce : RegisteredOnce evs) :
    ∃ h, NewHub.run m j evs = .done h ∧
      h.GetConnectedUsers = (liveUsers evs).length := by
  obtain ⟨h, hrun, hcons, _⟩ := Hub.run_registeredOnce m j evs hmem honce
  refine ⟨h, hrun, ?_⟩
  rw [Hub.GetConnectedUsers_eq_keys]
  apply List.Perm.length_eq
  have hnd : (liveUsers evs).Nodup := List.nodup_dedup _
  rw [List.perm_ext_iff_of_nodup h.userClients.keys_nodup hnd]
  intro u
  rw [← AList.mem_keys, hcons.mem_userClients_iff u, mem_liveUsers evs u]
  constructor
  · rintro ⟨s, hs, hu⟩
    exact ⟨s, (Hub.mem_clients_iff_stillRegistered m j evs h hmem hrun s).mp hs, hu⟩
  · rintro ⟨s, hs, hu⟩
    exact ⟨s, (Hub.mem_clients_iff_stillRegistered m j evs h hmem hrun s).mpr hs, hu⟩

theorem getConnectedUsers_eq_live_users_witness :
    ∃ h, NewHub.run sampleMarshalMessage sampleMarshal sampleHistory = .done h ∧
      h.GetConnectedUsers = (liveUsers sampleHistory).length :=
  getConnectedUsers_eq_live_users sampleMarshalMessage sampleMarshal sampleHistory
    (by decide) (by decide)

/-- C6, as stated, fails: after `twoStalledTrace` both sessions of user 7 are
registered with 256 frames in a mailbox of capacity 256, and one more
`SendToUser` to user 7 returns `nil` with `GetTotalConnections` going from 2 to
0, which is two less and not one less. -/
theorem sendToUser_two_full_sessions_drops_two :
    ((NewHub.run sampleMarshalMessage sampleMarshal twoStalledTrace).map fun h =>
        (decide (ann1 ∈ h.clients), (h.send ann1).closed,
          [(h.send ann1).buf.length, (h.send ann1).cap, h.GetTotalConnections])) =
      .done (true, false, [256, 256, 2]) ∧
    ((NewHub.run sampleMarshalMessage sampleMarshal twoStalledTrace).bind fun h =>
        (h.SendToUser sampleMarshal 7 5).map fun r => (r.1.GetTotalConnections, r.2)) =
      .done (0, none) := by
  decide

/-- C6, amended: when the mailbox of every session listed for the user is open
and no session is listed twice, `SendToUser` ends normally and returns `nil`;
every listed session whose mailbox was full is out of the global set afterwards
and its mailbox is closed; `GetTotalConnections` drops by the number of the
registered sessions of the user whose mailbox was full, hence by exactly one
when a single such session was full. -/
theorem sendToUser_evicts_each_full_session {α : Type}
    (jsonMarshal : α → Except GoError Bytes)
    (h : Hub) (userID : UUID) (message : α) (data : Bytes)
    (hser : jsonMarshal message = .ok data)
    (hnd : (h.sessionsOf userID).Nodup)
    (hopen : ∀ c ∈ h.sessionsOf userID, (h.send c).closed = false) :
    ∃ h1, h.SendToUser jsonMarshal userID message = .done (h1, none) ∧
      (∀ c ∈ h.sessionsOf userID, (h.send c).full →
        c ∉ h1.clients ∧ (h1.send c).closed = true) ∧
      h1.GetTotalConnections +
          ((h.sessionsOf userID).filter fun c =>
            decide (c ∈ h.clients ∧ (h.send c).full)).length =
        h.GetTotalConnections ∧
      (∀ s, ((h.sessionsOf userID).filter fun c =>
            decide (c ∈ h.clients ∧ (h.send c).full)) = [s] →
        h1.GetTotalConnections + 1 = h.GetTotalConnections) := by
  obtain ⟨h1, hrun, _, hsend, hmem, hlen⟩ :=
    Hub.pushAll_spec data (h.sessionsOf userID) h hnd hopen
  have hcount : h1.GetTotalConnections +
      ((h.sessionsOf userID).filter fun c =>
        decide (c ∈ h.clients ∧ (h.send c).full)).length =
      h.GetTotalConnections := by
    simpa [Hub.GetTotalConnections, AList.keys, List.keys] using hlen
  refine ⟨h1, ?_, ?_, hcount, ?_⟩
  · rw [Hub.SendToUser_of_ok jsonMarshal h userID message data hser, hrun]
    rfl
  · intro c hc hf
    constructor
    · intro hin
      exact ((hmem c).mp hin).2 ⟨hc, hf⟩
    · rw [hsend c, if_pos hc, Chan.afterPush_of_full data hf]
  · intro s hs
    rw [hs] at hcount
    simpa using hcount

theorem sendToUser_evicts_each_full_session_witness :
    ∃ h1, mixedHub.SendToUser sampleMarshal 7 5 = .done (h1, none) ∧
      (∀ c ∈ mixedHub.sessionsOf 7, (mixedHub.send c).full →
        c ∉ h1.clients ∧ (h1.send c).closed = true) ∧
      h1.GetTotalConnections +
          ((mixedHub.sessionsOf 7).filter fun c =>
            decide (c ∈ mixedHub.clients ∧ (mixedHub.send c).full)).length =
        mixedHub.GetTotalConnections ∧
      (∀ s, ((mixedHub.sessionsOf 7).filter fun c =>
            decide (c ∈ mixedHub.clients ∧ (mixedHub.send c).full)) = [s] →
        h1.GetTotalConnections + 1 = mixedHub.GetTotalConnections) :=
  sendToUser_evicts_each_full_session sampleMarshal mixedHub 7 5 [5] rfl
    (by decide) (by decide)

/-- C9: `SendToUser` returns the marshaller's error when serialization fails;
when serialization succeeds and the mailboxes of the user's sessions are open it
ends normally with `nil`, whether the user is offline or sessions with a full
mailbox are evicted; and whenever it returns, the returned error is non-nil
exactly when serialization failed. -/
theorem sendToUser_error_iff_marshal_fails {α : Type}
    (jsonMarshal : α → Except GoError Bytes) (h : Hub) (userID : UUID) (message : α) :
    (∀ err, jsonMarshal message = .error err →
      h.SendToUser jsonMarshal userID message = .done (h, some err)) ∧
    (∀ data, jsonMarshal message = .ok data → (h.sessionsOf userID).Nodup →
      (∀ c ∈ h.sessionsOf userID, (h.send c).closed = false) →
      ∃ h1, h.SendToUser jsonMarshal userID message = .done (h1, none)) ∧
    (∀ h1 r, h.SendToUser jsonMarshal userID message = .done (h1, r) →
      (r ≠ none ↔ ∃ err, jsonMarshal message = .error err)) := by
  refine ⟨?_, ?_, ?_⟩
  · intro err herr
    simp [Hub.SendToUser, herr]
  · intro data hser hnd hopen
    obtain ⟨h1, hrun, _⟩ := Hub.pushAll_spec data (h.sessionsOf userID) h hnd hopen
    exact ⟨h1, by
      rw [Hub.SendToUser_of_ok jsonMarshal h userID message data hser, hrun]
      rfl⟩
  · intro h1 r hres
    cases hser : jsonMarshal message with
    | error err =>
      simp only [Hub.SendToUser, hser, Outcome.done.injEq, Prod.mk.injEq] at hres
      rw [← hres.2]
      simp
    | ok data =>
      rw [Hub.SendToUser_of_ok jsonMarshal h userID message data hser] at hres
      cases hp : h.pushAll data (h.sessionsOf userID) with
      | done h2 =>
        rw [hp] at hres
        simp only [Outcome.map_done, Outcome.done.injEq, Prod.mk.injEq] at hres
        rw [← hres.2]
        simp
      | blocks => rw [hp] at hres; cases hres
      | panics => rw [hp] at hres; cases hres

theorem sendToUser_error_iff_marshal_fails_witness :
    (∃ h1, mixedHub.SendToUser sampleMarshal 7 5 = .done (h1, none)) ∧
      mixedHub.SendToUser sampleMarshal 7 0 =
        .done (mixedHub, some "json: unsupported value") :=
  ⟨(sendToUser_error_iff_marshal_fails sampleMarshal mixedHub 7 5).2.1 [5] rfl
      (by decide) (by decide),
    (sendToUser_error_iff_marshal_fails sampleMarshal mixedHub 7 0).1 _ rfl⟩

/-- C10: when serialization of the envelope fails, `SendToUser` and
`BroadcastMessage` return the marshaller's error and the hub state (both tables
and every mailbox) is the one before the call. -/
theorem serialization_failure_delivers_nothing {α : Type}
    (jsonMarshal : α → Except GoError Bytes) (h : Hub) (userID : UUID) (message : α)
    (err : GoError) (hser : jsonMarshal message = .error err) :
    h.SendToUser jsonMarshal userID message = .done (h, some err) ∧
      h.BroadcastMessage jsonMarshal message = .done (h, some err) := by
  constructor
  · simp [Hub.SendToUser, hser]
  · simp [Hub.BroadcastMessage, hser]

theorem serialization_failure_delivers_nothing_witness :
    mixedHub.SendToUser sampleMarshal 7 0 =
        .done (mixedHub, some "json: unsupported value") ∧
      mixedHub.BroadcastMessage sampleMarshal 0 =
        .done (mixedHub, some "json: unsupported value") :=
  serialization_failure_delivers_nothing sampleMarshal mixedHub 7 0 _ rfl

/-- C11: for a session that is not yet in the global set, whenever the register
case ends normally the global set is the old one plus the session (one more
connection), the list of the session's user is its old list with the session
appended at the end (the one-element list when the user had no entry), and the
entries of all other users are unchanged; the case does end normally when the
mailbox of the session has room, as the new mailbox of capacity 256 has. -/
theorem register_updates_both_tables (m : Message → Except GoError Bytes) (h : Hub)
    (c : Client) (now : Time) (hnew : c ∉ h.clients) :
    (∀ h1, h.register m c now = .done h1 →
      (∀ x, x ∈ h1.clients ↔ x = c ∨ x ∈ h.clients) ∧
      h1.GetTotalConnections = h.GetTotalConnections + 1 ∧
      h1.userClients.lookup c.userID = some (h.sessionsOf c.userID ++ [c]) ∧
      (h.userClients.lookup c.userID = none → h1.sessionsOf c.userID = [c]) ∧
      (∀ u, u ≠ c.userID → h1.userClients.lookup u = h.userClients.lookup u)) ∧
    ((h.send c).hasRoom → ∃ h1, h.register m c now = .done h1) := by
  constructor
  · intro h1 hr
    obtain ⟨hcl, huc, _, _⟩ := Hub.register_done m h h1 c now hr
    refine ⟨?_, ?_, ?_, ?_, ?_⟩
    · intro x
      rw [hcl, AList.mem_insert]
    · rw [Hub.GetTotalConnections_eq_keys, Hub.GetTotalConnections_eq_keys, hcl]
      exact AList.length_keys_insert_of_not_mem h.clients c true hnew
    · rw [huc, AList.lookup_insert]
    · intro hnone
      have hold : h.sessionsOf c.userID = [] := by
        unfold Hub.sessionsOf
        rw [hnone]
        rfl
      have hnew1 : h1.sessionsOf c.userID = h.sessionsOf c.userID ++ [c] := by
        unfold Hub.sessionsOf
        rw [huc, AList.lookup_insert]
        rfl
      rw [hnew1, hold]
      rfl
    · intro u hu
      rw [huc, AList.lookup_insert_ne hu]
  · exact Hub.register_of_hasRoom m h c now

theorem register_updates_both_tables_witness :
    (∀ h1, pairHub.register sampleMarshalMessage bob1 3 = .done h1 →
      (∀ x, x ∈ h1.clients ↔ x = bob1 ∨ x ∈ pairHub.clients) ∧
      h1.GetTotalConnections = pairHub.GetTotalConnections + 1 ∧
      h1.userClients.lookup bob1.userID = some (pairHub.sessionsOf bob1.userID ++ [bob1]) ∧
      (pairHub.userClients.lookup bob1.userID = none → h1.sessionsOf bob1.userID = [bob1]) ∧
      (∀ u, u ≠ bob1.userID → h1.userClients.lookup u = pairHub.userClients.lookup u)) ∧
    ((pairHub.send bob1).hasRoom →
      ∃ h1, pairHub.register sampleMarshalMessage bob1 3 = .done h1) :=
  register_updates_both_tables sampleMarshalMessage pairHub bob1 3 (by decide)

/-- C13, as stated, fails: registering `ann1` while its mailbox already holds 256
of 256 frames does not complete; the plain send of the welcome frame parks the
control loop, and no state with the session in the tables is produced. -/
theorem register_full_mailbox_blocks :
    (preloadedHub.send ann1).full ∧
      (preloadedHub.register sampleMarshalMessage ann1 0).map Hub.tables = .blocks := by
  refine ⟨?_, ?_⟩ <;> decide

/-- C13, amended: with the welcome message serialized, the register case
completes when the mailbox of the session has room: the session is in both
tables and the welcome frame is at the tail of its mailbox; when the mailbox is
full the case does not complete, the control loop is parked on the send and
nothing is dropped. -/
theorem register_completes_iff_room (m : Message → Except GoError Bytes) (h : Hub)
    (c : Client) (now : Time) (data : Bytes) (hm : m (welcomeMsg now) = .ok data) :
    ((h.send c).hasRoom →
      ∃ h1, h.register m c now = .done h1 ∧ c ∈ h1.clients ∧
        c ∈ h1.sessionsOf c.userID ∧
        h1.send c = { h.send c with buf := (h.send c).buf ++ [data] }) ∧
    ((h.send c).full → h.register m c now = .blocks) := by
  constructor
  · intro hroom
    refine ⟨_, Hub.register_of_ok_hasRoom m h c now data hm hroom, ?_, ?_, ?_⟩
    · simp [AList.mem_insert]
    · simp [Hub.sessionsOf, AList.lookup_insert]
    · simp
  · exact Hub.register_of_ok_full m h c now data hm

theorem register_completes_iff_room_witness :
    ((NewHub.send ann1).hasRoom →
      ∃ h1, NewHub.register sampleMarshalMessage ann1 0 = .done h1 ∧ ann1 ∈ h1.clients ∧
        ann1 ∈ h1.sessionsOf ann1.userID ∧
        h1.send ann1 =
          { NewHub.send ann1 with buf := (NewHub.send ann1).buf ++ [[6, 0]] }) ∧
    ((NewHub.send ann1).full → NewHub.register sampleMarshalMessage ann1 0 = .blocks) :=
  register_completes_iff_room sampleMarshalMessage NewHub ann1 0 [6, 0] rfl

/-- C15: the unregister case on a session that is not in the global set returns
the hub state as it was (both tables and every mailbox), and handling
`unregister(s)` twice in a row gives what handling it once gives, so the mailbox
is closed by the first of the two at most. -/
theorem unregister_idempotent (h : Hub) (c : Client) :
    (c ∉ h.clients → h.unregister c = .done h) ∧
      (h.unregister c).bind (fun h1 => h1.unregister c) = h.unregister c := by
  constructor
  · exact Hub.unregister_of_not_mem h c
  · cases hr : h.unregister c with
    | done h1 =>
      have hnot : c ∉ h1.clients := by
        intro hin
        exact ((Hub.unregister_done_clients h h1 c hr c).mp hin).1 rfl
      rw [Outcome.bind_done, Hub.unregister_of_not_mem h1 c hnot]
    | blocks => rfl
    | panics => rfl

theorem unregister_idempotent_witness :
    (ann1 ∉ NewHub.clients → NewHub.unregister ann1 = .done NewHub) ∧
      (NewHub.unregister ann1).bind (fun h1 => h1.unregister ann1) =
        NewHub.unregister ann1 :=
  unregister_idempotent NewHub ann1

/-- C14: for a session of the global set whose mailbox is open and whose user's
list has no repetition, the unregister case ends normally; the session is no
longer in the global set, which is otherwise as before; the list of its user is
the old list without the session, the others in their order; the entry of the
user is gone exactly when the list held no other session, and an entry that
stays is not empty; the mailbox of the session is closed with its content kept;
no other user's entry and no other mailbox changes. -/
theorem unregister_removes_session (h : Hub) (c : Client) (hreg : c ∈ h.clients)
    (hopen : (h.send c).closed = false) (hnd : (h.sessionsOf c.userID).Nodup) :
    ∃ h1, h.unregister c = .done h1 ∧
      c ∉ h1.clients ∧ (∀ x, x ≠ c → (x ∈ h1.clients ↔ x ∈ h.clients)) ∧
      h1.sessionsOf c.userID = (h.sessionsOf c.userID).filter (fun x => x != c) ∧
      c ∉ h1.sessionsOf c.userID ∧
      (c.userID ∉ h1.userClients ↔ ∀ x ∈ h.sessionsOf c.userID, x = c) ∧
      (∀ l, h1.userClients.lookup c.userID = some l → l ≠ []) ∧
      h1.send c = { h.send c with closed := true } ∧
      (∀ u, u ≠ c.userID → h1.userClients.lookup u = h.userClients.lookup u) ∧
      (∀ x, x ≠ c → h1.send x = h.send x) := by
  obtain ⟨h1, hrun, hcl, hsend, hlook, hothers⟩ := Hub.unregister_spec h c hreg hopen
  have hsess : h1.sessionsOf c.userID = (h.sessionsOf c.userID).erase c := by
    unfold Hub.sessionsOf at hlook ⊢
    rw [hlook]
    by_cases he : ((h.userClients.lookup c.userID).getD []).erase c = []
    · rw [if_pos he, he]
      rfl
    · rw [if_neg he]
      rfl
  refine ⟨h1, hrun, ?_, ?_, ?_, ?_, ?_, ?_, ?_, hothers, ?_⟩
  · rw [hcl]
    simp [AList.mem_erase]
  · intro x hx
    rw [hcl]
    simp [AList.mem_erase, hx]
  · rw [hsess, hnd.erase_eq_filter c]
  · rw [hsess, hnd.mem_erase_iff]
    exact fun hx => hx.1 rfl
  · rw [← AList.lookup_eq_none, hlook]
    by_cases he : (h.sessionsOf c.userID).erase c = []
    · rw [if_pos he]
      refine ⟨fun _ x hx => ?_, fun _ => rfl⟩
      by_contra hxc
      have : x ∈ (h.sessionsOf c.userID).erase c := (hnd.mem_erase_iff).mpr ⟨hxc, hx⟩
      rw [he] at this
      cases this
    · rw [if_neg he]
      refine ⟨fun hn => (by cases hn), fun hall => ?_⟩
      exfalso
      apply he
      apply List.eq_nil_iff_forall_not_mem.mpr
      intro x hx
      have hx2 := (hnd.mem_erase_iff).mp hx
      exact hx2.1 (hall x hx2.2)
  · intro l hl
    rw [hlook] at hl
    by_cases he : (h.sessionsOf c.userID).erase c = []
    · rw [if_pos he] at hl
      cases hl
    · rw [if_neg he] at hl
      simp only [Option.some.injEq] at hl
      rw [← hl]
      exact he
  · rw [hsend]
    simp
  · intro x hx
    rw [hsend]
    simp [Function.update_noteq hx]

theorem unregister_removes_session_witness :
    ∃ h1, pairHub.unregister ann1 = .done h1 ∧
      ann1 ∉ h1.clients ∧ (∀ x, x ≠ ann1 → (x ∈ h1.clients ↔ x ∈ pairHub.clients)) ∧
      h1.sessionsOf ann1.userID =
        (pairHub.sessionsOf ann1.userID).filter (fun x => x != ann1) ∧
      ann1 ∉ h1.sessionsOf ann1.userID ∧
      (ann1.userID ∉ h1.userClients ↔ ∀ x ∈ pairHub.sessionsOf ann1.userID, x = ann1) ∧
      (∀ l, h1.userClients.lookup ann1.userID = some l → l ≠ []) ∧
      h1.send ann1 = { pairHub.send ann1 with closed := true } ∧
      (∀ u, u ≠ ann1.userID → h1.userClients.lookup u = pairHub.userClients.lookup u) ∧
      (∀ x, x ≠ ann1 → h1.send x = pairHub.send x) :=
  unregister_removes_session pairHub ann1 (by decide) (by decide) (by decide)

/-- C17, evaluated: a session evicted for a full mailbox, by `SendToUser`
(`stalledTrace`) or by a broadcast (`broadcastTrace`), stays in the list of its
user after its unregister event is handled: the guard on `h.clients` makes the
unregister case skip it, and user 7 keeps an entry although the evicted session
was its only one. -/
theorem unregister_after_eviction_is_skipped :
    ((NewHub.run sampleMarshalMessage sampleMarshal
        (stalledTrace ++ [Event.unregister ann1])).map fun h =>
          (decide (ann1 ∈ h.clients), h.sessionsOf 7, h.GetConnectedUsers)) =
      .done (false, [ann1], 1) ∧
    ((NewHub.run sampleMarshalMessage sampleMarshal
        (broadcastTrace ++ [Event.unregister ann1])).map fun h =>
          (decide (ann1 ∈ h.clients), h.sessionsOf 7, h.GetConnectedUsers)) =
      .done (false, [ann1], 2) := by
  refine ⟨?_, ?_⟩ <;> decide

/-- C18, evaluated: after `broadcastTrace` the frame is at the tail of the
mailbox of `bob1`, which had room; the session `ann1`, whose mailbox was full, is
gone from `clients` and its mailbox is closed, but it is still in the list of
user 7 in `userClients`. -/
theorem broadcast_eviction_keeps_user_entry :
    ((NewHub.run sampleMarshalMessage sampleMarshal broadcastTrace).map Hub.tables) =
      .done ([bob1], [(8, [bob1]), (7, [ann1])]) ∧
    ((NewHub.run sampleMarshalMessage sampleMarshal broadcastTrace).map fun h =>
        ((h.send bob1).buf, (h.send ann1).closed, (h.send ann1).buf.length)) =
      .done ([[6, 1], [9]], true, 256) := by
  refine ⟨?_, ?_⟩ <;> decide

/-- C20, evaluated: the welcome and the pong message, which carry the zero
`UserID`, no `Username` and no `Data`, are encoded without the keys `username`
and `data` but with the key `user_id`, holding the text form of the zero UUID:
`omitempty` never omits an array of length 16. -/
theorem welcome_and_pong_carry_user_id (now : Time) :
    (welcomeMsg now).jsonKeys = .ok ["type", "content", "user_id", "timestamp"] ∧
      (pongMsg now).jsonKeys = .ok ["type", "content", "user_id", "timestamp"] ∧
      (welcomeMsg now).jsonMembers =
        .ok [("type", JsonValue.string "system"),
          ("content", JsonValue.string "欢迎使用智能聊天助手！"),
          ("user_id", JsonValue.uuid 0), ("timestamp", JsonValue.time now)] := by
  refine ⟨rfl, rfl, rfl⟩

/-- C22, as stated, fails twice: `ValidateEmail` accepts "@domain.com", which
begins with `@` and which the rule of the test rejects; and it rejects a string
of 255 bytes that the rule accepts, because of its bound `len(email) <= 254`. -/
theorem validateEmail_differs_from_rule :
    ValidateEmail (ascii "@domain.com") = true ∧ ¬ emailRule (ascii "@domain.com") ∧
      ValidateEmail longEmail = false ∧ emailRule longEmail := by
  decide

/-- C22, amended: for every string that does not begin with `@`,
`ValidateEmail` accepts it exactly when it contains `@`, contains `.`, is longer
than 5 bytes and not longer than 254 bytes; it accepts "test@example.com",
"user.name@domain.co.uk" and "test123@gmail.com" and rejects "invalid-email",
"test@" and the empty string. -/
theorem validateEmail_iff_rule_and_bound (email : GoString)
    (hpre : ¬ ascii "@" <+: email) :
    (ValidateEmail email = true ↔ emailRule email ∧ email.length ≤ 254) ∧
      ValidateEmail (ascii "test@example.com") = true ∧
      ValidateEmail (ascii "user.name@domain.co.uk") = true ∧
      ValidateEmail (ascii "test123@gmail.com") = true ∧
      ValidateEmail (ascii "invalid-email") = false ∧
      ValidateEmail (ascii "test@") = false ∧
      ValidateEmail (ascii "") = false := by
  refine ⟨?_, by decide, by decide, by decide, by decide, by decide, by decide⟩
  unfold ValidateEmail emailRule
  simp only [Bool.and_eq_true, decide_eq_true_eq, contains_eq_true_iff]
  constructor
  · rintro ⟨⟨⟨h5, h254⟩, hat⟩, hdot⟩
    exact ⟨⟨hat, hdot, h5, hpre⟩, h254⟩
  · rintro ⟨⟨hat, hdot, h5, _⟩, h254⟩
    exact ⟨⟨⟨h5, h254⟩, hat⟩, hdot⟩

theorem validateEmail_iff_rule_and_bound_witness :
    (ValidateEmail (ascii "test@example.com") = true ↔
        emailRule (ascii "test@example.com") ∧ (ascii "test@example.com").length ≤ 254) ∧
      ValidateEmail (ascii "test@example.com") = true ∧
      ValidateEmail (ascii "user.name@domain.co.uk") = true ∧
      ValidateEmail (ascii "test123@gmail.com") = true ∧
      ValidateEmail (ascii "invalid-email") = false ∧
      ValidateEmail (ascii "test@") = false ∧
      ValidateEmail (ascii "") = false :=
  validateEmail_iff_rule_and_bound (ascii "test@example.com") (by decide)

/-- C29: for every input, `SanitizeString` returns the escapes of the bytes of
the input, one after the other in the order of the input (`<`, `>`, `&`, `"`, `'`
replaced by `&lt;`, `&gt;`, `&amp;`, `&quot;`, `&#39;`, the output of a
replacement not being read again); the output holds none of the bytes `<`, `>`,
`"` and `'`; and it is the input itself when the input holds none of the five
bytes. -/
theorem sanitizeString_escapes_each_byte (input : GoString) :
    SanitizeString input = (input.map escapeByte).flatten ∧
      (∀ x, x = 60 ∨ x = 62 ∨ x = 34 ∨ x = 39 → x ∉ SanitizeString input) ∧
      ((∀ b ∈ input, b ≠ 60 ∧ b ≠ 62 ∧ b ≠ 38 ∧ b ≠ 34 ∧ b ≠ 39) →
        SanitizeString input = input) := by
  induction input with
  | nil =>
    refine ⟨rfl, ?_, fun _ => rfl⟩
    intro x _ hmem
    simp [SanitizeString, byteStringReplace] at hmem
  | cons b rest ih =>
    obtain ⟨ih1, ih2, ih3⟩ := ih
    refine ⟨?_, ?_, ?_⟩
    · rw [SanitizeString_cons, ih1]
      rfl
    · intro x hx hmem
      rw [SanitizeString_cons, List.mem_append] at hmem
      rcases hmem with hm | hm
      · exact escapeByte_free b x hx hm
      · exact ih2 x hx hm
    · intro hplain
      rw [SanitizeString_cons, escapeByte_of_plain b (hplain b (List.mem_cons_self b rest)),
        ih3 (fun c hc => hplain c (List.mem_cons_of_mem b hc))]
      rfl

theorem sanitizeString_escapes_each_byte_witness :
    SanitizeString (ascii "plain text") = ascii "plain text" ∧
      SanitizeString (ascii "<b>Tom & 'Al'</b>") =
        ((ascii "<b>Tom & 'Al'</b>").map escapeByte).flatten :=
  ⟨(sanitizeString_escapes_each_byte (ascii "plain text")).2.2 (by decide),
    (sanitizeString_escapes_each_byte (ascii "<b>Tom & 'Al'</b>")).1⟩

/-- C30, evaluated: for a context window whose first message is a reply of
the assistant, the contents are the two messages as they are, and the system
prompt "Answer briefly." of the user occurs in none of the texts. -/
theorem system_prompt_dropped_after_assistant :
    geminiContents windowFromAssistant { SystemPrompt := "Answer briefly." } =
        [{ Parts := [{ Text := "Hello, how can I help?" }], Role := "assistant" },
          { Parts := [{ Text := "Tell me a joke" }], Role := "user" }] ∧
      textsOf (geminiContents windowFromAssistant { SystemPrompt := "Answer briefly." }) =
        ["Hello, how can I help?", "Tell me a joke"] := by
  decide

/-- C21, evaluated: `SendToUser` reads and changes the tables in the goroutine of
its caller. With the control loop handling `unregister(ann2)` between the read
of the list of user 7 and the loop over it, the call sends on the mailbox the
control loop has closed and panics, although the call and the event in either
order end normally; with nothing in between the racing call is the call. With
`unregister(ann1)` in between, the control loop shifts `ann2` to the front of the
array the caller holds, and the call pushes the frame to `ann2` twice. -/
theorem sendToUser_races_with_control_loop :
    ((pairHub.SendToUserRacing sampleMarshal 7 5 [ann2]).map fun _ => ()) = .panics ∧
    (((pairHub.SendToUser sampleMarshal 7 5).bind fun r => r.1.unregister ann2).map
        Hub.tables) = .done ([ann1], [(7, [ann1])]) ∧
    (((pairHub.unregister ann2).bind fun h => h.SendToUser sampleMarshal 7 5).map
        fun r => r.1.tables) = .done ([ann1], [(7, [ann1])]) ∧
    (∀ (h : Hub) (userID : UUID) (message : Nat),
      h.SendToUserRacing sampleMarshal userID message [] =
        h.SendToUser sampleMarshal userID message) ∧
    ((pairHub.SendToUserRacing sampleMarshal 7 5 [ann1]).map fun r =>
        ((r.1.send ann2).buf, r.2)) = .done ([[5], [5]], none) := by
  refine ⟨by decide, by decide, by decide, ?_, by decide⟩
  exact Hub.SendToUserRacing_nil sampleMarshal

/-- C23, evaluated: after `stalledTrace`, in which every session is registered
once, the session `ann1` is still in the list of user 7 with a closed mailbox;
the next `SendToUser` to user 7 sends on that closed mailbox and panics, and so
does the pong push of its reader loop. -/
theorem closed_mailbox_stays_listed_and_panics :
    RegisteredOnce stalledTrace ∧
    ((NewHub.run sampleMarshalMessage sampleMarshal stalledTrace).map fun h =>
        (h.sessionsOf 7, (h.send ann1).closed)) = .done ([ann1], true) ∧
    ((NewHub.run sampleMarshalMessage sampleMarshal stalledTrace).bind fun h =>
        (h.SendToUser sampleMarshal 7 5).map fun _ => ()) = .panics ∧
    ((NewHub.run sampleMarshalMessage sampleMarshal stalledTrace).bind fun h =>
        (h.readPumpRound sampleMarshalMessage (readPumpSetup 0) ann1
          (ReadResult.decoded pingFrame) 1).map fun _ => ()) = .panics := by
  refine ⟨by decide, by decide, by decide, by decide⟩

/-- C24, as stated, fails: a reader loop set up at time 0 has the deadline 60; a
successful read at time 30 leaves the deadline at 60, whereas a pong response at
time 30 moves it to 90. -/
theorem read_leaves_deadline_unchanged :
    ((pairHub.readPumpRound sampleMarshalMessage (readPumpSetup 0) ann1
        (ReadResult.decoded typingFrame) 30).map fun r => r.2.readDeadline) = .done 60 ∧
      (pongHandler (readPumpSetup 0) 30).readDeadline = 90 := by
  refine ⟨by decide, by decide⟩

/-- C24, amended: the read deadline is set to the current time plus 60 seconds
when the reader loop starts and on every pong response; a round of the loop,
whatever was read, leaves the deadline as it was. -/
theorem read_deadline_moves_on_setup_and_pong_only (m : Message → Except GoError Bytes)
    (h h1 : Hub) (r r1 : Reader) (c : Client) (res : ReadResult) (now : Time)
    (hr : h.readPumpRound m r c res now = .done (h1, r1)) :
    r1.readDeadline = r.readDeadline ∧ (readPumpSetup now).readDeadline = now + 60 ∧
      (pongHandler r now).readDeadline = now + 60 :=
  ⟨Hub.readPumpRound_deadline m h h1 r r1 c res now hr, rfl, rfl⟩

theorem read_deadline_moves_on_setup_and_pong_only_witness :
    (readPumpSetup 0).readDeadline = (readPumpSetup 0).readDeadline ∧
      (readPumpSetup 30).readDeadline = 30 + 60 ∧
      (pongHandler (readPumpSetup 0) 30).readDeadline = 30 + 60 :=
  read_deadline_moves_on_setup_and_pong_only sampleMarshalMessage pairHub pairHub
    (readPumpSetup 0) (readPumpSetup 0) ann1 (ReadResult.decoded typingFrame) 30 rfl

/-- C25, evaluated: in an iteration of the writer loop the outcome of writing a
text frame plays no part; after a failed write of the first frame of `twoFrames`
the loop has not returned and the next iteration writes the second frame,
whereas a failed ping makes the loop return. -/
theorem failed_text_write_is_ignored :
    (∀ (ch : Chan) (w : Writer) (writeOk : Bool),
      writePumpStep ch w (Select.recv writeOk) = writePumpStep ch w (Select.recv true)) ∧
    writePumpStep twoFrames ⟨[], false⟩ (Select.recv false) =
      some (⟨[[2]], 256, false⟩, ⟨[Frame.text [1]], false⟩) ∧
    ((writePumpStep twoFrames ⟨[], false⟩ (Select.recv false)).bind fun r =>
        writePumpStep r.1 r.2 (Select.recv true)) =
      some (⟨[], 256, false⟩, ⟨[Frame.text [1], Frame.text [2]], false⟩) ∧
    writePumpStep twoFrames ⟨[], false⟩ (Select.tick false) =
      some (twoFrames, ⟨[Frame.ping], true⟩) := by
  refine ⟨fun _ _ _ => rfl, by decide, by decide, by decide⟩

/-- C26, as stated, fails: from the same hub state, the envelopes
`chatResponse 100` and `chatResponse 200`, which differ in the time stamp of the
producer only, put different bytes into the mailbox of `ann1`; the member
`timestamp` of the encoded frame is the value the producer wrote. -/
theorem pushed_bytes_carry_producer_timestamp :
    ((pairHub.SendToUser sampleMarshalMessage 7 (chatResponse 100)).map fun r =>
        (r.1.send ann1).buf) = .done [[13, 100]] ∧
    ((pairHub.SendToUser sampleMarshalMessage 7 (chatResponse 200)).map fun r =>
        (r.1.send ann1).buf) = .done [[13, 200]] ∧
    (chatResponse 100).jsonMembers =
      .ok [("type", JsonValue.string "chat_response"), ("content", JsonValue.string "hi"),
        ("user_id", JsonValue.uuid 7), ("username", JsonValue.string "ann"),
        ("timestamp", JsonValue.time 100)] := by
  refine ⟨by decide, by decide, rfl⟩

/-- C26, amended: `SendToUser` pushes the serialization of the envelope as the
producer built it and reads no clock: for two envelopes sent from the same hub
state to a user whose sessions have room, every session gets the serialization
of the envelope sent, so the pushed bytes agree exactly when the serializations
of the two envelopes agree. -/
theorem sendToUser_pushes_producer_envelope {α : Type}
    (j : α → Except GoError Bytes) (h : Hub) (userID : UUID) (e1 e2 : α)
    (d1 d2 : Bytes) (hj1 : j e1 = .ok d1) (hj2 : j e2 = .ok d2)
    (hnd : (h.sessionsOf userID).Nodup)
    (hroom : ∀ c ∈ h.sessionsOf userID, (h.send c).hasRoom) :
    ∃ h1 h2, h.SendToUser j userID e1 = .done (h1, none) ∧
      h.SendToUser j userID e2 = .done (h2, none) ∧
      ∀ c ∈ h.sessionsOf userID,
        (h1.send c).buf = (h.send c).buf ++ [d1] ∧
        (h2.send c).buf = (h.send c).buf ++ [d2] ∧
        ((h1.send c).buf = (h2.send c).buf ↔ d1 = d2) := by
  obtain ⟨h1, hrun1, _, _, hsend1⟩ :=
    Hub.pushAll_of_hasRoom d1 (h.sessionsOf userID) h hnd hroom
  obtain ⟨h2, hrun2, _, _, hsend2⟩ :=
    Hub.pushAll_of_hasRoom d2 (h.sessionsOf userID) h hnd hroom
  refine ⟨h1, h2, ?_, ?_, ?_⟩
  · rw [Hub.SendToUser_of_ok j h userID e1 d1 hj1, hrun1]
    rfl
  · rw [Hub.SendToUser_of_ok j h userID e2 d2 hj2, hrun2]
    rfl
  · intro c hc
    have hb1 : (h1.send c).buf = (h.send c).buf ++ [d1] := by
      rw [hsend1 c, if_pos hc, Chan.afterPush_of_hasRoom d1 (hroom c hc)]
    have hb2 : (h2.send c).buf = (h.send c).buf ++ [d2] := by
      rw [hsend2 c, if_pos hc, Chan.afterPush_of_hasRoom d2 (hroom c hc)]
    refine ⟨hb1, hb2, ?_⟩
    rw [hb1, hb2]
    constructor
    · intro heq
      have := List.append_cancel_left heq
      simpa using this
    · intro heq
      rw [heq]

theorem sendToUser_pushes_producer_envelope_witness :
    ∃ h1 h2, pairHub.SendToUser sampleMarshalMessage 7 (chatResponse 100) =
        .done (h1, none) ∧
      pairHub.SendToUser sampleMarshalMessage 7 (chatResponse 200) = .done (h2, none) ∧
      ∀ c ∈ pairHub.sessionsOf 7,
        (h1.send c).buf = (pairHub.send c).buf ++ [[13, 100]] ∧
        (h2.send c).buf = (pairHub.send c).buf ++ [[13, 200]] ∧
        ((h1.send c).buf = (h2.send c).buf ↔ [13, 100] = [13, 200]) :=
  sendToUser_pushes_producer_envelope sampleMarshalMessage pairHub 7 (chatResponse 100)
    (chatResponse 200) [13, 100] [13, 200] rfl rfl (by decide) (by decide)

/-- C28: for a decoded envelope whose type is neither "ping" nor "chat", the
round of the reader loop ends normally with the hub state (both tables and every
mailbox) and the reader as they were: nothing is pushed, the session stays
registered and the loop is not left. -/
theorem unknown_type_is_discarded (m : Message → Except GoError Bytes) (h : Hub)
    (r : Reader) (c : Client) (msg : Message) (now : Time)
    (hping : msg.Type' ≠ "ping") (hchat : msg.Type' ≠ "chat") :
    h.readPumpRound m r c (ReadResult.decoded msg) now = .done (h, r) := by
  simp [Hub.readPumpRound, hping, hchat]

theorem unknown_type_is_discarded_witness :
    pairHub.readPumpRound sampleMarshalMessage (readPumpSetup 0) ann1
        (ReadResult.decoded typingFrame) 30 = .done (pairHub, readPumpSetup 0) :=
  unknown_type_is_discarded sampleMarshalMessage pairHub (readPumpSetup 0) ann1
    typingFrame 30 (by decide) (by decide)

/-- C5, evaluated: after `staleFullRoomTrace`, in which every session is
registered once, user 7 has the registered sessions `ann2`, with 256 frames in a
mailbox of capacity 256, and `ann3`, with one frame in a mailbox of capacity 256;
the session `ann1`, evicted earlier for a full mailbox, is still the first of
the list of user 7 and its mailbox is closed. `SendToUser` to user 7 then sends
on the closed mailbox of `ann1` and panics before it reaches `ann3`: the call
does not complete and the session with room gets no frame. -/
theorem stale_entry_starves_session_with_room :
    RegisteredOnce staleFullRoomTrace ∧
    ((NewHub.run sampleMarshalMessage sampleMarshal staleFullRoomTrace).map Hub.tables) =
      .done ([ann3, ann2], [(7, [ann1, ann2, ann3])]) ∧
    ((NewHub.run sampleMarshalMessage sampleMarshal staleFullRoomTrace).map fun h =>
        ((h.send ann1).closed, (h.send ann2).closed, (h.send ann2).buf.length,
          (h.send ann2).cap, h.send ann3)) =
      .done (true, false, 256, 256, ⟨[[6, 2]], 256, false⟩) ∧
    ((NewHub.run sampleMarshalMessage sampleMarshal staleFullRoomTrace).bind fun h =>
        (h.SendToUser sampleMarshal 7 5).map fun _ => ()) = .panics := by
  refine ⟨?_, ?_, ?_, ?_⟩ <;> decide

/-- C12, evaluated: `SendToUser` runs in the goroutine of its caller and not in
the control loop. When `ann1` registers on the new hub and a request handler
calls `SendToUser(7, 5)` after the register case has written the tables and
before it sends the welcome frame, the call finds `ann1` in the list of user 7
and returns `nil`, and the mailbox of `ann1` holds the frame `[5]` ahead of the
welcome frame `[6, 0]`, so the writer loop passes `[5]` to the connection first.
In either serial order the welcome frame is first. The register case is its two
table writes followed by the welcome send. -/
theorem dispatch_overtakes_welcome :
    ((NewHub.registerRacing sampleMarshalMessage sampleMarshal ann1 0 7 5).map fun r =>
        ((r.1.send ann1).buf, r.2)) = .done ([[5], [6, 0]], none) ∧
    ((NewHub.registerRacing sampleMarshalMessage sampleMarshal ann1 0 7 5).map fun r =>
        r.1.tables) = .done ([ann1], [(7, [ann1])]) ∧
    ((NewHub.registerRacing sampleMarshalMessage sampleMarshal ann1 0 7 5).map fun r =>
        (writePumpStep (r.1.send ann1) ⟨[], false⟩ (Select.recv true)).map fun p =>
          p.2.wire) =
      .done (some [Frame.text [5]]) ∧
    ((NewHub.register sampleMarshalMessage ann1 0).bind fun h =>
        (h.SendToUser sampleMarshal 7 5).map fun r => (r.1.send ann1).buf) =
      .done [[6, 0], [5]] ∧
    ((NewHub.SendToUser sampleMarshal 7 5).bind fun r =>
        (r.1.register sampleMarshalMessage ann1 0).map fun h => (h.send ann1).buf) =
      .done [[6, 0]] ∧
    (∀ (h : Hub) (client : Client) (now : Time),
      h.register sampleMarshalMessage client now =
        (h.registerTables client).registerWelcome sampleMarshalMessage client now) := by
  refine ⟨by decide, by decide, by decide, by decide, by decide, ?_⟩
  exact Hub.register_eq_tables_then_welcome sampleMarshalMessage

/-- C16, evaluated: after `staleThenPairTrace`, in which every session is
registered once, the sessions registered for user 7 are the distinct `ann2` and
`ann3`, both with room in their mailboxes; `ann1`, evicted before they connected,
is still in the list of user 7. After `ann2` is unregistered, `SendToUser` to
user 7 panics on the closed mailbox of `ann1` and appends nothing to the mailbox
of `ann3`, and likewise with the two exchanged; after both are unregistered, in
either order, user 7 still has the entry `[ann1]` and `GetConnectedUsers` is 1. -/
theorem stale_entry_outlives_both_sessions :
    RegisteredOnce staleThenPairTrace ∧
    ((NewHub.run sampleMarshalMessage sampleMarshal staleThenPairTrace).map fun h =>
        (h.tables, (h.send ann1).closed, h.send ann2, h.send ann3)) =
      .done (([ann3, ann2], [(7, [ann1, ann2, ann3])]), true,
        ⟨[[6, 1]], 256, false⟩, ⟨[[6, 2]], 256, false⟩) ∧
    ((NewHub.run sampleMarshalMessage sampleMarshal staleThenPairTrace).bind fun h =>
        (h.unregister ann2).bind fun h1 =>
          (h1.SendToUser sampleMarshal 7 5).map fun _ => ()) = .panics ∧
    ((NewHub.run sampleMarshalMessage sampleMarshal staleThenPairTrace).bind fun h =>
        (h.unregister ann3).bind fun h1 =>
          (h1.SendToUser sampleMarshal 7 5).map fun _ => ()) = .panics ∧
    ((NewHub.run sampleMarshalMessage sampleMarshal staleThenPairTrace).bind fun h =>
        (h.unregister ann2).bind fun h1 =>
          (h1.unregister ann3).map fun h2 => (h2.tables, h2.GetConnectedUsers)) =
      .done (([], [(7, [ann1])]), 1) ∧
    ((NewHub.run sampleMarshalMessage sampleMarshal staleThenPairTrace).bind fun h =>
        (h.unregister ann3).bind fun h1 =>
          (h1.unregister ann2).map fun h2 => (h2.tables, h2.GetConnectedUsers)) =
      .done (([], [(7, [ann1])]), 1) := by
  refine ⟨?_, ?_, ?_, ?_, ?_, ?_⟩ <;> decide

/-- C19, evaluated: after `siblingActions` the session `ann2` is registered, its
mailbox of capacity 256 has never held more than two frames and is empty, and
its writer loop has passed the welcome frame and the serialization of the
envelope 11 to the connection; that same call of `SendToUser` evicted the
sibling `ann1`, whose mailbox was full. The next call `SendToUser(7, 12)` sends
on the closed mailbox of `ann1` and panics, and so does every call after it, as
`SendToUser(7, 13)`: of the envelopes 11, 12, 13 sent in that order, the writer
loop of `ann2` passes on only the first. -/
theorem stalled_sibling_cuts_off_later_envelopes :
    (((World.ofHub NewHub).run sampleMarshalMessage sampleMarshal siblingActions).map
        fun w => (decide (ann2 ∈ w.hub.clients), textFrames (w.writer ann2).wire,
          w.hub.send ann2, w.hub.sessionsOf 7)) =
      .done (true, [[6, 1], [11]], ⟨[], 256, false⟩, [ann1, ann2]) ∧
    (((World.ofHub NewHub).run sampleMarshalMessage sampleMarshal
        (siblingActions ++ [Action.hub (Event.sendToUser 7 12)])).map fun _ => ()) =
      .panics ∧
    (((World.ofHub NewHub).run sampleMarshalMessage sampleMarshal siblingActions).bind
        fun w => (w.hub.SendToUser sampleMarshal 7 13).map fun _ => ()) = .panics := by
  refine ⟨?_, ?_, ?_⟩ <;> decide

/-- C27, evaluated: after `broadcastTrace`, in which every session is registered
once, the session `ann1` has been evicted by the broadcast loop and its mailbox
is closed with 256 frames. A ping envelope its reader loop decodes then makes
the round send the pong frame on the closed mailbox and panic: no pong envelope
is appended to the mailbox of the session. -/
theorem ping_after_eviction_pushes_no_pong :
    RegisteredOnce broadcastTrace ∧
    ((NewHub.run sampleMarshalMessage sampleMarshal broadcastTrace).map fun h =>
        (h.sessionsOf 7, (h.send ann1).closed, (h.send ann1).buf.length)) =
      .done ([ann1], true, 256) ∧
    ((NewHub.run sampleMarshalMessage sampleMarshal broadcastTrace).bind fun h =>
        (h.readPumpRound sampleMarshalMessage (readPumpSetup 0) ann1
          (ReadResult.decoded pingFrame) 2).map fun _ => ()) = .panics := by
  refine ⟨?_, ?_, ?_⟩ <;> decide

end GoChat
